import Mathlib

set_option maxHeartbeats 1000000

/-!
Shallow embedding of `src/main.py` of the stock_correction repository.

The source is a pandas-based cost-correction engine.  The embedding models:
* a movement row of the `StockMovements` DataFrame as the structure `Mov`
  (one field per column, after the derived columns added in `__init__`);
* the `Stock` DataFrame as a list of `Position` rows keyed by `item_id`;
* the `StockResume` DataFrame as a list of `ResumeEntry` rows;
* every `raise ValueError` as an `Except Err` result;
* floats as exact rationals (ℚ).

Mutation of `self.at[index, col]` is modelled as a keyed functional update of
the movement list; `self.loc[movement_id]` (which in pandas returns a detached
copy of the row for a mixed-dtype frame) is modelled by binding the looked-up
`Mov` value before any update, so later updates do not affect it — exactly the
stale-copy semantics of the Python code.
-/

/-- Calendar date (proleptic Gregorian, as Python `datetime`). -/
structure Date where
  year : Nat
  month : Nat
  day : Nat
deriving DecidableEq, Repr

/-- Gregorian leap-year rule (as used by Python `datetime`). -/
def isLeapYear (y : Nat) : Bool :=
  y % 4 == 0 && (y % 100 != 0 || y % 400 == 0)

/-- Day count of a Gregorian month. -/
def daysInMonth (month year : Nat) : Nat :=
  if month == 2 then (if isLeapYear year then 29 else 28)
  else if month == 4 || month == 6 || month == 9 || month == 11 then 30
  else 31

/-- `StockResume.get_last_day_of_month`: for December the source returns
`datetime(year, 12, 31)`; otherwise `datetime(year, month+1, 1) - 1 day`,
which is the last calendar day of `month`. -/
def get_last_day_of_month (month year : Nat) : Date :=
  if month == 12 then ⟨year, 12, 31⟩
  else ⟨year, month, daysInMonth month year⟩

/-- `needle` is a leading segment of `hay` (character lists). -/
def leadMatch : List Char → List Char → Bool
  | [], _ => true
  | _ :: _, [] => false
  | a :: as, b :: bs => a == b && leadMatch as bs

/-- `needle` occurs as a contiguous segment of `hay` (character lists). -/
def segIn (needle : List Char) : List Char → Bool
  | [] => needle.isEmpty
  | c :: rest => leadMatch needle (c :: rest) || segIn needle rest

/-- Case-sensitive substring test: Python `needle in hay` and the default
`Series.str.contains(needle)` on a plain (non-regex-special) needle. -/
def strContains (hay needle : String) : Bool :=
  segIn needle.data hay.data

/-- Case-insensitive substring test: `Series.str.contains(needle, case=False)`. -/
def strContainsCI (hay needle : String) : Bool :=
  segIn (needle.data.map Char.toUpper) (hay.data.map Char.toUpper)

/-- One raw record of the movement feed, as fetched by `STOCK_MOVEMENTS_QUERY`
and left-merged with the `correct_movements_costs` override table. -/
structure RawMovement where
  movement_id : Nat
  movement_date : Date
  production_order_id : Option Nat
  entry_date : Option Date
  document_number : String
  movement_history : String
  item_id : Nat
  item_description : String
  quantity : ℚ
  average_cost : ℚ
  total_cost : ℚ
  correct_cost : Option ℚ
deriving DecidableEq, Repr

/-- One row of the `StockMovements` DataFrame after `__init__` has added the
derived columns.  `total_cost`, `average_cost` and
`movement_cost_is_already_correct` are the fields mutated during correction. -/
structure Mov where
  movement_id : Nat
  correct_movement_date : Date
  production_order_id : Option Nat
  document_number : String
  movement_history : String
  item_id : Nat
  item_description : String
  quantity : ℚ
  average_cost : ℚ
  total_cost : ℚ
  original_cost : ℚ
  correct_cost : Option ℚ
  is_dismantling : Bool
  is_dismantling_input : Bool
  is_dismantling_output : Bool
  is_production_order : Bool
  is_production_order_input : Bool
  is_production_order_output : Bool
  is_entry : Bool
  movement_cost_is_already_correct : Bool
  dismantling_id : Option Nat
deriving DecidableEq, Repr

/-- One row of the `Stock` DataFrame (the running per-item ledger). -/
structure Position where
  item_id : Nat
  description : String
  quantity : ℚ
  average_cost : ℚ
  total_cost : ℚ
  original_total_cost : ℚ
deriving DecidableEq, Repr

/-- The ledger: `Stock` rows in insertion order, keyed by `item_id`. -/
abbrev Stock := List Position

/-- One row of the `StockResume` DataFrame (monthly valuation snapshot). -/
structure ResumeEntry where
  date : Date
  corrected_cost : ℚ
  original_cost : ℚ
deriving DecidableEq, Repr

/-- The distinct `raise ValueError(...)` sites of the source. -/
inductive Err where
  | unknownItem (item_id : Nat)
  | duplicateItem (item_id : Nat)
  | noGroup (group_id : Option Nat)
  | incompleteGroup (group_id : Option Nat)
  | alreadyCorrected (movement_id : Nat)
  | unknownMovement (movement_id : Nat)
deriving DecidableEq, Repr

/-- First ledger row for an item, if any (`self.loc[item_id]` semantics). -/
def Stock.find_item (s : Stock) (item_id : Nat) : Option Position :=
  s.find? (fun p => p.item_id == item_id)

/-- `Stock.item_id_exists`: `item_id in self.index`. -/
def Stock.item_id_exists (s : Stock) (item_id : Nat) : Bool :=
  (s.find_item item_id).isSome

/-- `Stock.set_average_cost` applied to one row (run by `Stock.__init__` over
the seed frame): `total_cost / quantity` when `quantity != 0`, else `0`. -/
def positionWithAverage (p : Position) : Position :=
  { p with average_cost := if p.quantity ≠ 0 then p.total_cost / p.quantity else 0 }

/-- `Stock.__init__` on the seed rows: derive `average_cost` per row. -/
def mkStock (rows : List Position) : Stock :=
  rows.map positionWithAverage

/-- `Stock.insert_new_item_with_empty_stock`: append a fresh zero row, or
raise if the item is already present. -/
def Stock.insert_new_item_with_empty_stock (s : Stock) (item_id : Nat)
    (description : String) : Except Err Stock :=
  if ! s.item_id_exists item_id then
    .ok (s ++ [⟨item_id, description, 0, 0, 0, 0⟩])
  else
    .error (.duplicateItem item_id)

/-- `Stock.get_stock(item_id).average_cost.iloc[0]` as used by every caller:
the item's current average cost, or `UnknownItem`. -/
def Stock.get_stock_average (s : Stock) (item_id : Nat) : Except Err ℚ :=
  match s.find_item item_id with
  | none => .error (.unknownItem item_id)
  | some p => .ok p.average_cost

/-- The cell updates of `Stock.insert_transaction` on the row of `item_id`:
add `quantity`/`cost`/`original_cost` and recompute
`average_cost = total/quantity` (0 when the new quantity is 0). -/
def transactRow (item_id : Nat) (quantity cost original_cost : ℚ)
    (p : Position) : Position :=
  if p.item_id == item_id then
    { p with
      quantity := p.quantity + quantity
      total_cost := p.total_cost + cost
      original_total_cost := p.original_total_cost + original_cost
      average_cost :=
        if p.quantity + quantity ≠ 0 then
          (p.total_cost + cost) / (p.quantity + quantity)
        else 0 }
  else p

/-- `Stock.insert_transaction`: raise `UnknownItem` when the item is absent,
else update its row in place. -/
def Stock.insert_transaction (s : Stock) (item_id : Nat)
    (quantity cost original_cost : ℚ) : Except Err Stock :=
  if ! s.item_id_exists item_id then
    .error (.unknownItem item_id)
  else
    .ok (s.map (transactRow item_id quantity cost original_cost))

/-- `start_stock.total_cost.sum()`. -/
def stockTotalCostSum (s : Stock) : ℚ :=
  (s.map (fun p => p.total_cost)).sum

/-- `start_stock.original_total_cost.sum()`. -/
def stockOriginalCostSum (s : Stock) : ℚ :=
  (s.map (fun p => p.original_total_cost)).sum

/-- `StockMovements.set_init_columns` applied to one raw record: the derived
columns added before sorting.  Note the classification reads the raw
`total_cost` (overrides are applied only later, in
`set_movement_cost_is_already_correct`), `is_dismantling` is the only
case-insensitive test (`case=False`), and the history tests use pandas'
default case-sensitive `str.contains`. -/
def classifyInit (r : RawMovement) : Mov :=
  { movement_id := r.movement_id
    correct_movement_date := r.entry_date.getD r.movement_date
    production_order_id := r.production_order_id
    document_number := r.document_number
    movement_history := r.movement_history
    item_id := r.item_id
    item_description := r.item_description
    quantity := r.quantity
    average_cost := r.average_cost
    total_cost := r.total_cost
    original_cost := r.total_cost
    correct_cost := r.correct_cost
    is_dismantling := strContainsCI r.document_number "DESMONTE"
    is_dismantling_input :=
      decide (r.total_cost < 0) && strContainsCI r.document_number "DESMONTE"
    is_dismantling_output :=
      decide (r.total_cost > 0) && strContainsCI r.document_number "DESMONTE"
    is_production_order := r.production_order_id.isSome
    is_production_order_input :=
      strContains r.movement_history "REQUISICAO" && r.production_order_id.isSome
    is_production_order_output :=
      strContains r.movement_history "ENC" && strContains r.movement_history "ORDEM"
        && r.production_order_id.isSome
    is_entry := strContains r.movement_history "RECEBIMENTO"
    movement_cost_is_already_correct := false
    dismantling_id := none }

/-- Sort key comparison of `order_by_correct_movement_date`:
lexicographic on `(correct_movement_date, movement_id)`. -/
def dateLtB (a b : Date) : Bool :=
  decide (a.year < b.year) ||
    (decide (a.year = b.year) &&
      (decide (a.month < b.month) ||
        (decide (a.month = b.month) && decide (a.day < b.day))))

/-- Non-strict sort order of `sort_values(by=['correct_movement_date', 'movement_id'])`. -/
def movLE (a b : Mov) : Bool :=
  dateLtB a.correct_movement_date b.correct_movement_date ||
    (decide (a.correct_movement_date = b.correct_movement_date) &&
      decide (a.movement_id ≤ b.movement_id))

/-- Insertion step of the sort. -/
def insertSorted (m : Mov) : List Mov → List Mov
  | [] => [m]
  | x :: xs => if movLE m x then m :: x :: xs else x :: insertSorted m xs

/-- `StockMovements.order_by_correct_movement_date`: sort by
`(correct_movement_date, movement_id)`.  The key is total, and on the frame's
unique `movement_id` index it is injective, so any comparison sort computes
this same list; insertion sort is used as the model. -/
def sortMovs : List Mov → List Mov
  | [] => []
  | x :: xs => insertSorted x (sortMovs xs)

/-- Loop body state of `set_dismantling_id`, processing the `is_dismantling`
rows in frame order and returning `(movement_id, assigned group)` pairs. -/
def assignLoop : List Mov → Option Nat → Bool → List (Nat × Option Nat)
  | [], _, _ => []
  | row :: rest, dismantling_id, last_was_output =>
    let st :=
      if dismantling_id.isNone || (row.is_dismantling_input && last_was_output) then
        (some row.movement_id, false)
      else
        (dismantling_id, last_was_output)
    let st2 : Option Nat × Bool :=
      if row.is_dismantling_output then (st.1, true) else st
    (row.movement_id, st.1) :: assignLoop rest st2.1 st2.2

/-- `StockMovements.set_dismantling_id`: run `assignLoop` over the dismantling
rows (in the already-sorted frame order) and write each assignment back into
the frame at its `movement_id` index. -/
def set_dismantling_id (movs : List Mov) : List Mov :=
  let asg := assignLoop (movs.filter (fun m => m.is_dismantling)) none false
  movs.map (fun m =>
    match asg.lookup m.movement_id with
    | some g => { m with dismantling_id := g }
    | none => m)

/-- `StockMovements.set_movement_cost_is_already_correct`: capture
`original_cost` from the pre-override `total_cost`, apply the override when
present, and initialise the already-correct flag from
`~isna(correct_cost) | is_entry`. -/
def set_movement_cost_is_already_correct (movs : List Mov) : List Mov :=
  movs.map (fun m =>
    { m with
      original_cost := m.total_cost
      total_cost := m.correct_cost.getD m.total_cost
      movement_cost_is_already_correct := m.correct_cost.isSome || m.is_entry })

/-- `StockMovements.__init__`: classify, sort, assign dismantling groups,
apply overrides and set the already-correct flag (`correct_column_types` is a
dtype cast with no observable effect in the model). -/
def stockMovementsInit (raws : List RawMovement) : List Mov :=
  set_movement_cost_is_already_correct
    (set_dismantling_id (sortMovs (raws.map classifyInit)))

/-- Keyed in-place column write: `self.at[movement_id, ...] = ...`. -/
def updIfId (movement_id : Nat) (f : Mov → Mov) (m : Mov) : Mov :=
  if m.movement_id == movement_id then f m else m

/-- The column writes of the input loop of `correct_dismantling` /
`correct_production_order` for one input row. -/
def setInputCost (quantity avg_stock : ℚ) (m : Mov) : Mov :=
  { m with
    total_cost := quantity * avg_stock
    average_cost := avg_stock
    movement_cost_is_already_correct := true }

/-- The column writes of the output loop for one output row:
`total_cost = inputs_corrected_cost * (original_cost / outputs_original_cost)`
and `average_cost = total_cost / quantity` (reading the just-written cell).
Division is exact rational division; where the float code would produce
`inf`/`nan` (zero `outputs_original_cost` or zero `quantity`), the rational
model yields 0 — the conservation theorem therefore carries an explicit
nonzero-sum hypothesis instead of relying on this corner. -/
def setOutputCost (original_cost quantity liberated outputs_sum : ℚ) (m : Mov) : Mov :=
  { m with
    total_cost := liberated * (original_cost / outputs_sum)
    average_cost := liberated * (original_cost / outputs_sum) / quantity
    movement_cost_is_already_correct := true }

/-- The input loop shared by `correct_dismantling` and
`correct_production_order`: iterate over the pre-selected snapshot rows,
look up the item's current ledger average, write the corrected cost into the
frame, and accumulate `inputs_corrected_cost += (quantity * avg_stock) * -1`. -/
def applyInputs (stock : Stock) :
    List Mov → List Mov → ℚ → Except Err (List Mov × ℚ)
  | movs, [], acc => .ok (movs, acc)
  | movs, row :: rest, acc =>
    match stock.get_stock_average row.item_id with
    | .error e => .error e
    | .ok avg_stock =>
      applyInputs stock
        (movs.map (updIfId row.movement_id (setInputCost row.quantity avg_stock)))
        rest
        (acc + row.quantity * avg_stock * (-1))

/-- The output loop shared by both resolvers: distribute the liberated value
over the snapshot output rows in proportion `original_cost / outputs_sum`. -/
def applyOutputs (liberated outputs_sum : ℚ) :
    List Mov → List Mov → List Mov
  | movs, [] => movs
  | movs, row :: rest =>
    applyOutputs liberated outputs_sum
      (movs.map (updIfId row.movement_id
        (setOutputCost row.original_cost row.quantity liberated outputs_sum)))
      rest

/-- `self[self.dismantling_id == dismantling_id]` where the argument may be
missing (`NaN`): a pandas comparison against `NaN` selects nothing. -/
def selectByDismantlingId (movs : List Mov) (dismantling_id : Option Nat) : List Mov :=
  match dismantling_id with
  | none => []
  | some d => movs.filter (fun m => m.dismantling_id == some d)

/-- `self[self.production_order_id == production_order_id]`, same `NaN` rule. -/
def selectByProductionOrderId (movs : List Mov) (production_order_id : Option Nat) :
    List Mov :=
  match production_order_id with
  | none => []
  | some p => movs.filter (fun m => m.production_order_id == some p)

/-- `StockMovements.correct_dismantling`. -/
def correct_dismantling (movs : List Mov) (dismantling_id : Option Nat)
    (stock : Stock) : Except Err (List Mov) :=
  let dismantling := selectByDismantlingId movs dismantling_id
  if dismantling.isEmpty then
    .error (.noGroup dismantling_id)
  else
    let input_movements := dismantling.filter (fun m => m.is_dismantling_input)
    let output_movements := dismantling.filter (fun m => m.is_dismantling_output)
    let outputs_original_cost := (output_movements.map (fun m => m.original_cost)).sum
    if input_movements.isEmpty || output_movements.isEmpty then
      .error (.incompleteGroup dismantling_id)
    else
      match applyInputs stock movs input_movements 0 with
      | .error e => .error e
      | .ok (movs2, inputs_corrected_cost) =>
        .ok (applyOutputs inputs_corrected_cost outputs_original_cost
              movs2 output_movements)

/-- `StockMovements.correct_production_order`.  The output-emptiness half of
the check is commented out in the source; only empty inputs raise.  The
per-output `output_movements.original_cost.sum()` is computed from the
pre-loop snapshot (whose `original_cost` is never written), hence constant. -/
def correct_production_order (movs : List Mov) (production_order_id : Option Nat)
    (stock : Stock) : Except Err (List Mov) :=
  let production_order := selectByProductionOrderId movs production_order_id
  if production_order.isEmpty then
    .error (.noGroup production_order_id)
  else
    let input_movements := production_order.filter (fun m => m.is_production_order_input)
    let output_movements := production_order.filter (fun m => m.is_production_order_output)
    if input_movements.isEmpty then
      .error (.incompleteGroup production_order_id)
    else
      match applyInputs stock movs input_movements 0 with
      | .error e => .error e
      | .ok (movs2, inputs_corrected_cost) =>
        .ok (applyOutputs inputs_corrected_cost
              ((output_movements.map (fun m => m.original_cost)).sum)
              movs2 output_movements)

/-- The column writes of `correct_movement_cost_by_stock`:
`total_cost = avg_stock * quantity`, `average_cost = avg_stock`. -/
def setStockCost (avg_stock quantity : ℚ) (m : Mov) : Mov :=
  { m with
    total_cost := avg_stock * quantity
    average_cost := avg_stock
    movement_cost_is_already_correct := true }

/-- The anomaly-guard column write of `insert_movement_to_stock`:
`total_cost = original_cost`. -/
def setRevertCost (original_cost : ℚ) (m : Mov) : Mov :=
  { m with total_cost := original_cost }

/-- `StockMovements.correct_movement_cost_by_stock`. -/
def correct_movement_cost_by_stock (movs : List Mov) (movement_id : Nat)
    (stock : Stock) : Except Err (List Mov) :=
  match movs.find? (fun m => m.movement_id == movement_id) with
  | none => .error (.unknownMovement movement_id)
  | some movement =>
    if movement.movement_cost_is_already_correct then
      .error (.alreadyCorrected movement_id)
    else
      match stock.get_stock_average movement.item_id with
      | .error e => .error e
      | .ok avg_stock =>
        .ok (movs.map (updIfId movement_id (setStockCost avg_stock movement.quantity)))

/-- `StockMovements.insert_movement_to_stock`.  `movement = self.loc[movement_id]`
is a detached copy: the anomaly-guard write
`self.at[movement_id, 'total_cost'] = movement.original_cost` updates the
frame, but the subsequent `stock.insert_transaction(..., cost=movement.total_cost, ...)`
still reads the copy, i.e. the pre-revert cost.  The embedding reproduces this
by passing `movement.total_cost` (the bound snapshot) to the transaction. -/
def insert_movement_to_stock (movs : List Mov) (movement_id : Nat)
    (stock : Stock) : Except Err (List Mov × Stock) :=
  match movs.find? (fun m => m.movement_id == movement_id) with
  | none => .error (.unknownMovement movement_id)
  | some movement =>
    let stock1 : Stock :=
      if stock.item_id_exists movement.item_id then stock
      else stock ++ [⟨movement.item_id, movement.item_description, 0, 0, 0, 0⟩]
    let delta := movement.original_cost - movement.total_cost
    let delta_p := |delta / movement.original_cost|
    let movs1 :=
      if decide (delta_p > 10) && strContains movement.movement_history "INVENT" then
        movs.map (updIfId movement_id (setRevertCost movement.original_cost))
      else movs
    match stock1.insert_transaction movement.item_id movement.quantity
        movement.total_cost movement.original_cost with
    | .error e => .error e
    | .ok stock2 => .ok (movs1, stock2)

/-- `last_date.month != row.month or last_date.year != row.year`. -/
def monthYearDiffers (a b : Date) : Bool :=
  decide (a.month ≠ b.month) || decide (a.year ≠ b.year)

/-- The per-row body of `correct_costs_and_generate_stocks` after the
month-boundary bookkeeping: dispatch on the snapshot row's flags (pandas
`iterrows` materialises all rows before the loop runs, so the dispatch always
sees the pre-pass column values) and apply the movement to the ledger. -/
def driveStep (row : Mov) (movs : List Mov) (stock : Stock) :
    Except Err (List Mov × Stock) :=
  if row.movement_cost_is_already_correct then
    insert_movement_to_stock movs row.movement_id stock
  else if row.is_dismantling then
    match correct_dismantling movs row.dismantling_id stock with
    | .error e => .error e
    | .ok movs1 => insert_movement_to_stock movs1 row.movement_id stock
  else if row.is_production_order then
    match correct_production_order movs row.production_order_id stock with
    | .error e => .error e
    | .ok movs1 => insert_movement_to_stock movs1 row.movement_id stock
  else
    match correct_movement_cost_by_stock movs row.movement_id stock with
    | .error e => .error e
    | .ok movs1 => insert_movement_to_stock movs1 row.movement_id stock

/-- The month-boundary bookkeeping at the top of the loop body of
`correct_costs_and_generate_stocks`: when `last_date` is set and the current
row's date `d` falls in a different `(month, year)`, append a `StockResume`
entry (`insert_new_entry`) for `last_date`'s month with the ledger's current
cost sums; otherwise leave the resume unchanged. -/
def resumeAfter (resume : List ResumeEntry) (last_date : Option Date) (d : Date)
    (stock : Stock) : List ResumeEntry :=
  match last_date with
  | some ld =>
    if monthYearDiffers ld d then
      resume ++ [⟨get_last_day_of_month ld.month ld.year,
                  stockTotalCostSum stock, stockOriginalCostSum stock⟩]
    else resume
  | none => resume

/-- The loop of `correct_costs_and_generate_stocks`: for each snapshot row,
first do the month-boundary bookkeeping (`resumeAfter`), then process the row
(`driveStep`), then set `last_date` to the row's date and continue. -/
def drive : List Mov → List Mov → Stock → List ResumeEntry → Option Date →
    Except Err (List Mov × Stock × List ResumeEntry)
  | [], movs, stock, resume, _ => .ok (movs, stock, resume)
  | row :: rest, movs, stock, resume, last_date =>
    match driveStep row movs stock with
    | .error e => .error e
    | .ok (movs1, stock1) =>
      drive rest movs1 stock1
        (resumeAfter resume last_date row.correct_movement_date stock)
        (some row.correct_movement_date)

/-- `StockMovements.correct_costs_and_generate_stocks`: the loop iterates the
pre-pass snapshot of the frame (first argument) while the frame itself
(second argument) is mutated. -/
def correct_costs_and_generate_stocks (movs : List Mov) (start_stock : Stock) :
    Except Err (List Mov × Stock × List ResumeEntry) :=
  drive movs movs start_stock [] none

/-- The fields of a movement never written by any correction operation:
everything except `total_cost`, `average_cost` and
`movement_cost_is_already_correct`. -/
def Mov.chassis (m : Mov) :
    Nat × Date × Option Nat × String × String × Nat × String × ℚ × ℚ × Option ℚ ×
      Bool × Bool × Bool × Bool × Bool × Bool × Bool × Option Nat :=
  (m.movement_id, m.correct_movement_date, m.production_order_id,
   m.document_number, m.movement_history, m.item_id, m.item_description,
   m.quantity, m.original_cost, m.correct_cost,
   m.is_dismantling, m.is_dismantling_input, m.is_dismantling_output,
   m.is_production_order, m.is_production_order_input,
   m.is_production_order_output, m.is_entry, m.dismantling_id)

/-- Quantity of an item's first ledger row (0 when the item is absent). -/
def stockQty (s : Stock) (item_id : Nat) : ℚ :=
  match s.find_item item_id with
  | some p => p.quantity
  | none => 0

/-- The quantity that processing movement `movement_id` adds to item `j`'s
ledger row: the looked-up movement's quantity when its item is `j`, else 0. -/
def contribOf (movs : List Mov) (movement_id j : Nat) : ℚ :=
  match movs.find? (fun m => m.movement_id == movement_id) with
  | some mv => if mv.item_id = j then mv.quantity else 0
  | none => 0

/-- Sum of `total_cost` over the movements satisfying `p`. -/
def sumTotalBy (p : Mov → Bool) (movs : List Mov) : ℚ :=
  ((movs.filter p).map (fun m => m.total_cost)).sum

/-- Modelled from the spec (§4.7/§8, monthly snapshot rule): the dates for
which the pass appends a snapshot, given the previous row's date — one entry
per processed movement whose date falls in a different `(month, year)` than
its predecessor, keyed by the predecessor's month; no trailing entry. -/
def boundaryFrom : Option Date → List Mov → List Date
  | _, [] => []
  | none, row :: rest => boundaryFrom (some row.correct_movement_date) rest
  | some ld, row :: rest =>
    (if monthYearDiffers ld row.correct_movement_date then
      [get_last_day_of_month ld.month ld.year]
    else []) ++ boundaryFrom (some row.correct_movement_date) rest

/-- Modelled from the spec (§4.2 GroupIdentifier): for each dismantling
movement in order, start a new group (id = this movement's id, reset
`lastWasOutput`) exactly when no group is open or the movement is a
dismantling-input arriving after the current group has produced an output;
record the output flag; assign the current group id regardless of branch. -/
def specGroupAssign : List Mov → Option Nat → Bool → List (Nat × Option Nat)
  | [], _, _ => []
  | row :: rest, currentGroupId, lastWasOutput =>
    let newGroupOpened : Bool :=
      currentGroupId.isNone || (row.is_dismantling_input && lastWasOutput)
    let gid : Option Nat :=
      if newGroupOpened then some row.movement_id else currentGroupId
    let lw : Bool :=
      if row.is_dismantling_output then true
      else if newGroupOpened then false else lastWasOutput
    (row.movement_id, gid) :: specGroupAssign rest gid lw

/-! ### Generic list lemmas -/

theorem find?_map_comm {α : Type} (g : α → α) (p : α → Bool)
    (h : ∀ a, p (g a) = p a) (l : List α) :
    (l.map g).find? p = (l.find? p).map g := by
  induction l with
  | nil => rfl
  | cons a t ih =>
    cases hp : p a with
    | true =>
      rw [List.map_cons, List.find?_cons_of_pos _ (by rw [h a, hp]),
        List.find?_cons_of_pos _ hp, Option.map_some']
    | false =>
      rw [List.map_cons, List.find?_cons_of_neg _ (by rw [h a, hp]; simp),
        List.find?_cons_of_neg _ (by simp [hp]), ih]

theorem find?_append_none {α : Type} (p : α → Bool) (l1 l2 : List α)
    (h : l1.find? p = none) : (l1 ++ l2).find? p = l2.find? p := by
  induction l1 with
  | nil => rfl
  | cons a t ih =>
    cases hp : p a with
    | true => rw [List.find?_cons_of_pos _ hp] at h; cases h
    | false =>
      rw [List.find?_cons_of_neg _ (by simp [hp])] at h
      rw [List.cons_append, List.find?_cons_of_neg _ (by simp [hp]), ih h]

theorem find?_append_some {α : Type} (p : α → Bool) (l1 l2 : List α) (a : α)
    (h : l1.find? p = some a) : (l1 ++ l2).find? p = some a := by
  induction l1 with
  | nil => cases h
  | cons b t ih =>
    cases hp : p b with
    | true =>
      rw [List.find?_cons_of_pos _ hp] at h
      rw [List.cons_append, List.find?_cons_of_pos _ hp]; exact h
    | false =>
      rw [List.find?_cons_of_neg _ (by simp [hp])] at h
      rw [List.cons_append, List.find?_cons_of_neg _ (by simp [hp]), ih h]


theorem sum_map_neg_q {α : Type} (l : List α) (g : α → ℚ) :
    (l.map (fun x => g x * (-1))).sum = -(l.map g).sum := by
  induction l with
  | nil => simp
  | cons a t ih => simp only [List.map_cons, List.sum_cons, ih]; ring

theorem sum_map_mul_left_q {α : Type} (l : List α) (c : ℚ) (g : α → ℚ) :
    (l.map (fun x => c * g x)).sum = c * (l.map g).sum := by
  induction l with
  | nil => simp
  | cons a t ih => simp only [List.map_cons, List.sum_cons, ih]; ring

theorem lookup_isSome_of_mem_keys {β : Type} (l : List (Nat × β)) (a : Nat)
    (h : a ∈ l.map Prod.fst) : (l.lookup a).isSome = true := by
  induction l with
  | nil => simp at h
  | cons x t ih =>
    obtain ⟨k, v⟩ := x
    simp only [List.map_cons, List.mem_cons] at h
    by_cases hak : a = k
    · simp [List.lookup, hak]
    · have hbeq : (a == k) = false := by simpa using hak
      simp only [List.lookup, hbeq]
      apply ih
      rcases h with h | h
      · exact absurd h hak
      · exact h

theorem lookup_mem_pairs {β : Type} (l : List (Nat × β)) (a : Nat) (b : β)
    (h : l.lookup a = some b) : (a, b) ∈ l := by
  induction l with
  | nil => cases h
  | cons x t ih =>
    obtain ⟨k, v⟩ := x
    by_cases hak : a = k
    · have hbeq : (a == k) = true := by simpa using hak
      simp only [List.lookup, hbeq, Option.some.injEq] at h
      subst hak
      rw [← h]
      exact List.mem_cons_self _ _
    · have hbeq : (a == k) = false := by simpa using hak
      simp only [List.lookup, hbeq] at h
      exact List.mem_cons_of_mem _ (ih h)

/-! ### Chassis preservation: the correction operations write only the cost
fields (`total_cost`, `average_cost`, `movement_cost_is_already_correct`) -/

theorem chassis_setInputCost (q a : ℚ) (x : Mov) :
    (setInputCost q a x).chassis = x.chassis := rfl

theorem chassis_setOutputCost (o q lib oc : ℚ) (x : Mov) :
    (setOutputCost o q lib oc x).chassis = x.chassis := rfl

theorem chassis_setStockCost (a q : ℚ) (x : Mov) :
    (setStockCost a q x).chassis = x.chassis := rfl

theorem chassis_setRevertCost (c : ℚ) (x : Mov) :
    (setRevertCost c x).chassis = x.chassis := rfl

theorem chassis_updIfId (movement_id : Nat) (f : Mov → Mov)
    (h : ∀ x, (f x).chassis = x.chassis) (m : Mov) :
    (updIfId movement_id f m).chassis = m.chassis := by
  unfold updIfId
  split
  · exact h m
  · rfl

theorem map_chassis_congr (f : Mov → Mov) (h : ∀ x, (f x).chassis = x.chassis)
    (l : List Mov) : (l.map f).map Mov.chassis = l.map Mov.chassis := by
  rw [List.map_map]
  exact List.map_congr_left (fun a _ => h a)

theorem applyInputs_chassis (stock : Stock) :
    ∀ (rows movs : List Mov) (acc : ℚ) (movs2 : List Mov) (acc2 : ℚ),
      applyInputs stock movs rows acc = .ok (movs2, acc2) →
      movs2.map Mov.chassis = movs.map Mov.chassis := by
  intro rows
  induction rows with
  | nil =>
    intro movs acc movs2 acc2 h
    simp only [applyInputs, Except.ok.injEq, Prod.mk.injEq] at h
    rw [h.1]
  | cons r rest ih =>
    intro movs acc movs2 acc2 h
    simp only [applyInputs] at h
    cases havg : stock.get_stock_average r.item_id with
    | error e => rw [havg] at h; cases h
    | ok avg =>
      rw [havg] at h
      rw [ih _ _ _ _ h]
      exact map_chassis_congr _
        (fun x => chassis_updIfId _ _ (chassis_setInputCost r.quantity avg) x) movs

theorem applyOutputs_chassis (liberated outputs_sum : ℚ) :
    ∀ (rows movs : List Mov),
      (applyOutputs liberated outputs_sum movs rows).map Mov.chassis =
        movs.map Mov.chassis := by
  intro rows
  induction rows with
  | nil => intro movs; rfl
  | cons r rest ih =>
    intro movs
    simp only [applyOutputs]
    rw [ih]
    exact map_chassis_congr _
      (fun x => chassis_updIfId _ _
        (chassis_setOutputCost r.original_cost r.quantity liberated outputs_sum) x) movs

theorem correct_dismantling_chassis (movs : List Mov) (did : Option Nat)
    (stock : Stock) (movs2 : List Mov)
    (h : correct_dismantling movs did stock = .ok movs2) :
    movs2.map Mov.chassis = movs.map Mov.chassis := by
  simp only [correct_dismantling] at h
  split at h
  · cases h
  · split at h
    · cases h
    · split at h
      · cases h
      · rename_i pair movs3 cost happ
        simp only [Except.ok.injEq] at h
        rw [← h, applyOutputs_chassis]
        exact applyInputs_chassis stock _ _ _ _ _ happ

theorem correct_production_order_chassis (movs : List Mov) (pid : Option Nat)
    (stock : Stock) (movs2 : List Mov)
    (h : correct_production_order movs pid stock = .ok movs2) :
    movs2.map Mov.chassis = movs.map Mov.chassis := by
  simp only [correct_production_order] at h
  split at h
  · cases h
  · split at h
    · cases h
    · split at h
      · cases h
      · rename_i pair movs3 cost happ
        simp only [Except.ok.injEq] at h
        rw [← h, applyOutputs_chassis]
        exact applyInputs_chassis stock _ _ _ _ _ happ

theorem correct_movement_cost_by_stock_chassis (movs : List Mov)
    (movement_id : Nat) (stock : Stock) (movs2 : List Mov)
    (h : correct_movement_cost_by_stock movs movement_id stock = .ok movs2) :
    movs2.map Mov.chassis = movs.map Mov.chassis := by
  simp only [correct_movement_cost_by_stock] at h
  split at h
  · cases h
  · rename_i movement hfind
    split at h
    · cases h
    · split at h
      · cases h
      · rename_i avg havg
        simp only [Except.ok.injEq] at h
        rw [← h]
        exact map_chassis_congr _
          (fun x => chassis_updIfId _ _ (chassis_setStockCost avg movement.quantity) x) movs

theorem insert_movement_to_stock_chassis (movs : List Mov) (movement_id : Nat)
    (stock : Stock) (movs2 : List Mov) (stock2 : Stock)
    (h : insert_movement_to_stock movs movement_id stock = .ok (movs2, stock2)) :
    movs2.map Mov.chassis = movs.map Mov.chassis := by
  simp only [insert_movement_to_stock] at h
  split at h
  · cases h
  · rename_i movement hfind
    split at h
    · cases h
    · simp only [Except.ok.injEq, Prod.mk.injEq] at h
      rw [← h.1]
      split
      · exact map_chassis_congr _
          (fun x => chassis_updIfId _ _ (chassis_setRevertCost movement.original_cost) x) movs
      · rfl

theorem driveStep_chassis (row : Mov) (movs : List Mov) (stock : Stock)
    (movs1 : List Mov) (stock1 : Stock)
    (h : driveStep row movs stock = .ok (movs1, stock1)) :
    movs1.map Mov.chassis = movs.map Mov.chassis := by
  unfold driveStep at h
  split at h
  · exact insert_movement_to_stock_chassis _ _ _ _ _ h
  · split at h
    · split at h
      · cases h
      · rename_i movsd hd
        rw [insert_movement_to_stock_chassis _ _ _ _ _ h]
        exact correct_dismantling_chassis _ _ _ _ hd
    · split at h
      · split at h
        · cases h
        · rename_i movsp hp
          rw [insert_movement_to_stock_chassis _ _ _ _ _ h]
          exact correct_production_order_chassis _ _ _ _ hp
      · split at h
        · cases h
        · rename_i movsc hc
          rw [insert_movement_to_stock_chassis _ _ _ _ _ h]
          exact correct_movement_cost_by_stock_chassis _ _ _ _ hc

theorem drive_chassis :
    ∀ (rows movs : List Mov) (stock : Stock) (resume : List ResumeEntry)
      (ld : Option Date) (movs' : List Mov) (stock' : Stock)
      (res' : List ResumeEntry),
      drive rows movs stock resume ld = .ok (movs', stock', res') →
      movs'.map Mov.chassis = movs.map Mov.chassis := by
  intro rows
  induction rows with
  | nil =>
    intro movs stock resume ld movs' stock' res' h
    simp only [drive, Except.ok.injEq, Prod.mk.injEq] at h
    rw [h.1]
  | cons row rest ih =>
    intro movs stock resume ld movs' stock' res' h
    simp only [drive] at h
    split at h
    · cases h
    · rename_i pair movs1 stock1 hstep
      rw [ih _ _ _ _ _ _ _ h]
      exact driveStep_chassis _ _ _ _ _ hstep

/-! ### Ledger quantity accounting -/

theorem transactRow_item_id (item_id : Nat) (quantity cost original_cost : ℚ)
    (p : Position) :
    (transactRow item_id quantity cost original_cost p).item_id = p.item_id := by
  unfold transactRow
  split <;> rfl

theorem find_item_insert_transaction (s s2 : Stock) (item_id : Nat)
    (quantity cost original_cost : ℚ)
    (h : s.insert_transaction item_id quantity cost original_cost = .ok s2) :
    ∀ j, stockQty s2 j = stockQty s j + (if item_id = j then quantity else 0) := by
  intro j
  unfold Stock.insert_transaction at h
  split at h
  · cases h
  · rename_i hex
    simp only [Bool.not_eq_eq_eq_not, Bool.not_true, Bool.not_eq_false] at hex
    simp only [Except.ok.injEq] at h
    have hcomm : ∀ p : Position,
        ((fun q : Position => q.item_id == j)
          (transactRow item_id quantity cost original_cost p)) = (p.item_id == j) := by
      intro p
      simp only [transactRow_item_id]
    rw [← h]
    unfold stockQty Stock.find_item
    rw [find?_map_comm _ _ hcomm]
    cases hf : s.find? (fun p => p.item_id == j) with
    | none =>
      by_cases hij : item_id = j
      · subst hij
        unfold Stock.item_id_exists Stock.find_item at hex
        rw [hf] at hex
        simp at hex
      · simp [hij]
    | some p =>
      have hpj := List.find?_some hf
      simp only [Option.map_some']
      by_cases hij : item_id = j
      · subst hij
        simp [transactRow, hpj]
      · have hpj2 : p.item_id = j := by simpa using hpj
        have hni : (p.item_id == item_id) = false := by
          rw [beq_eq_false_iff_ne, hpj2]
          omega
        simp [transactRow, hni, hij]

theorem stockQty_append_fresh (s : Stock) (item_id : Nat) (description : String) :
    ∀ j, stockQty (s ++ [⟨item_id, description, 0, 0, 0, 0⟩]) j = stockQty s j := by
  intro j
  unfold stockQty Stock.find_item
  cases hf : s.find? (fun p => p.item_id == j) with
  | none =>
    rw [find?_append_none _ _ _ hf]
    cases hj : (([⟨item_id, description, 0, 0, 0, 0⟩] : Stock).find?
        (fun p => p.item_id == j)) with
    | none => simp
    | some p =>
      have hmem := List.mem_of_find?_eq_some hj
      simp only [List.mem_singleton] at hmem
      simp [hmem]
  | some p => rw [find?_append_some _ _ _ _ hf]

theorem insert_movement_to_stock_qty (movs : List Mov) (movement_id : Nat)
    (stock : Stock) (movs1 : List Mov) (stock2 : Stock) (mv : Mov)
    (hfind : movs.find? (fun m => m.movement_id == movement_id) = some mv)
    (h : insert_movement_to_stock movs movement_id stock = .ok (movs1, stock2)) :
    ∀ j, stockQty stock2 j = stockQty stock j +
      (if mv.item_id = j then mv.quantity else 0) := by
  intro j
  simp only [insert_movement_to_stock, hfind] at h
  split at h
  · cases h
  · rename_i stock3 htr
    simp only [Except.ok.injEq, Prod.mk.injEq] at h
    rw [← h.2]
    rw [find_item_insert_transaction _ _ _ _ _ _ htr j]
    by_cases hex : stock.item_id_exists mv.item_id
    · simp only [if_pos hex]
    · simp only [if_neg hex]
      rw [stockQty_append_fresh stock mv.item_id mv.item_description j]

theorem find?_of_map_chassis_eq (movs1 movs : List Mov) (mid : Nat)
    (h : movs1.map Mov.chassis = movs.map Mov.chassis) :
    (movs1.find? (fun m => m.movement_id == mid)).map Mov.chassis =
      (movs.find? (fun m => m.movement_id == mid)).map Mov.chassis := by
  induction movs generalizing movs1 with
  | nil =>
    cases movs1 with
    | nil => rfl
    | cons a t => simp at h
  | cons a t ih =>
    cases movs1 with
    | nil => simp at h
    | cons b t2 =>
      simp only [List.map_cons, List.cons.injEq] at h
      obtain ⟨hab, ht⟩ := h
      have hid : b.movement_id = a.movement_id := congrArg (fun c => c.1) hab
      by_cases hm : a.movement_id = mid
      · rw [List.find?_cons_of_pos _ (by rw [beq_iff_eq, hid]; exact hm),
          List.find?_cons_of_pos _ (by simp [hm])]
        simp [hab]
      · rw [List.find?_cons_of_neg _ (by rw [beq_iff_eq, hid]; exact hm),
          List.find?_cons_of_neg _ (by simp [hm])]
        exact ih t2 ht

theorem contribOf_congr (movs1 movs : List Mov) (mid j : Nat)
    (h : movs1.map Mov.chassis = movs.map Mov.chassis) :
    contribOf movs1 mid j = contribOf movs mid j := by
  unfold contribOf
  have hfc := find?_of_map_chassis_eq movs1 movs mid h
  cases h1 : movs1.find? (fun m => m.movement_id == mid) with
  | none =>
    rw [h1] at hfc
    cases h2 : movs.find? (fun m => m.movement_id == mid) with
    | none => rfl
    | some x => rw [h2] at hfc; cases hfc
  | some x =>
    rw [h1] at hfc
    cases h2 : movs.find? (fun m => m.movement_id == mid) with
    | none => rw [h2] at hfc; cases hfc
    | some y =>
      rw [h2] at hfc
      simp only [Option.map_some', Option.some.injEq] at hfc
      have hitem : x.item_id = y.item_id :=
        congrArg (fun c => c.2.2.2.2.2.1) hfc
      have hq : x.quantity = y.quantity :=
        congrArg (fun c => c.2.2.2.2.2.2.2.1) hfc
      simp [hitem, hq]

theorem contribOf_eq_of_find (movs : List Mov) (mid j : Nat) (mv : Mov)
    (h : movs.find? (fun m => m.movement_id == mid) = some mv) :
    contribOf movs mid j = if mv.item_id = j then mv.quantity else 0 := by
  unfold contribOf
  rw [h]

theorem driveStep_qty (row : Mov) (movs : List Mov) (stock : Stock)
    (movs1 : List Mov) (stock1 : Stock)
    (h : driveStep row movs stock = .ok (movs1, stock1)) :
    ∀ j, stockQty stock1 j = stockQty stock j + contribOf movs row.movement_id j := by
  intro j
  unfold driveStep at h
  split at h
  · cases hf : movs.find? (fun m => m.movement_id == row.movement_id) with
    | none => simp only [insert_movement_to_stock, hf] at h; cases h
    | some mv =>
      rw [insert_movement_to_stock_qty movs _ _ _ _ mv hf h j,
        contribOf_eq_of_find movs _ j mv hf]
  · split at h
    · split at h
      · cases h
      · rename_i movsd hd
        cases hf : movsd.find? (fun m => m.movement_id == row.movement_id) with
        | none => simp only [insert_movement_to_stock, hf] at h; cases h
        | some mv =>
          rw [insert_movement_to_stock_qty movsd _ _ _ _ mv hf h j,
            ← contribOf_congr movsd movs row.movement_id j
              (correct_dismantling_chassis _ _ _ _ hd),
            contribOf_eq_of_find movsd _ j mv hf]
    · split at h
      · split at h
        · cases h
        · rename_i movsp hp
          cases hf : movsp.find? (fun m => m.movement_id == row.movement_id) with
          | none => simp only [insert_movement_to_stock, hf] at h; cases h
          | some mv =>
            rw [insert_movement_to_stock_qty movsp _ _ _ _ mv hf h j,
              ← contribOf_congr movsp movs row.movement_id j
                (correct_production_order_chassis _ _ _ _ hp),
              contribOf_eq_of_find movsp _ j mv hf]
      · split at h
        · cases h
        · rename_i movsc hc
          cases hf : movsc.find? (fun m => m.movement_id == row.movement_id) with
          | none => simp only [insert_movement_to_stock, hf] at h; cases h
          | some mv =>
            rw [insert_movement_to_stock_qty movsc _ _ _ _ mv hf h j,
              ← contribOf_congr movsc movs row.movement_id j
                (correct_movement_cost_by_stock_chassis _ _ _ _ hc),
              contribOf_eq_of_find movsc _ j mv hf]

theorem drive_qty :
    ∀ (rows movs : List Mov) (stock : Stock) (resume : List ResumeEntry)
      (ld : Option Date) (movs' : List Mov) (stock' : Stock)
      (res' : List ResumeEntry),
      drive rows movs stock resume ld = .ok (movs', stock', res') →
      ∀ j, stockQty stock' j = stockQty stock j +
        ((rows.map (fun r => contribOf movs r.movement_id j)).sum) := by
  intro rows
  induction rows with
  | nil =>
    intro movs stock resume ld movs' stock' res' h j
    simp only [drive, Except.ok.injEq, Prod.mk.injEq] at h
    rw [← h.2.1]
    simp
  | cons row rest ih =>
    intro movs stock resume ld movs' stock' res' h j
    simp only [drive] at h
    split at h
    · cases h
    · rename_i pair movs1 stock1 hstep
      have hstepq := driveStep_qty _ _ _ _ _ hstep j
      have hrest := ih _ _ _ _ _ _ _ h j
      have hch := driveStep_chassis _ _ _ _ _ hstep
      rw [hrest, hstepq]
      simp only [List.map_cons, List.sum_cons]
      rw [List.map_congr_left
        (fun (r : Mov) (_ : r ∈ rest) => contribOf_congr movs1 movs r.movement_id j hch)]
      ring

theorem drive_resume :
    ∀ (rows movs : List Mov) (stock : Stock) (resume : List ResumeEntry)
      (ld : Option Date) (movs' : List Mov) (stock' : Stock)
      (res' : List ResumeEntry),
      drive rows movs stock resume ld = .ok (movs', stock', res') →
      res'.map (fun e => e.date) =
        resume.map (fun e => e.date) ++ boundaryFrom ld rows := by
  intro rows
  induction rows with
  | nil =>
    intro movs stock resume ld movs' stock' res' h
    simp only [drive, Except.ok.injEq, Prod.mk.injEq] at h
    rw [← h.2.2]
    simp [boundaryFrom]
  | cons row rest ih =>
    intro movs stock resume ld movs' stock' res' h
    simp only [drive] at h
    split at h
    · cases h
    · rename_i pair movs1 stock1 hstep
      rw [ih _ _ _ _ _ _ _ h]
      cases ld with
      | none => simp [resumeAfter, boundaryFrom]
      | some l =>
        by_cases hd : monthYearDiffers l row.correct_movement_date = true
        · simp [resumeAfter, boundaryFrom, hd]
        · simp only [Bool.not_eq_true] at hd
          simp [resumeAfter, boundaryFrom, hd]

theorem find?_self_of_nodup (movs : List Mov) (r : Mov)
    (hnd : (movs.map (fun m => m.movement_id)).Nodup) (hr : r ∈ movs) :
    movs.find? (fun m => m.movement_id == r.movement_id) = some r := by
  induction movs with
  | nil => cases hr
  | cons a t ih =>
    simp only [List.map_cons, List.nodup_cons] at hnd
    rcases List.mem_cons.mp hr with h | h
    · subst h
      exact List.find?_cons_of_pos _ (by simp)
    · by_cases ha : a.movement_id = r.movement_id
      · exact absurd (ha ▸ List.mem_map_of_mem (fun m => m.movement_id) h) hnd.1
      · rw [List.find?_cons_of_neg _ (by simp [ha])]
        exact ih hnd.2 h

theorem sum_ite_eq_filter_sum (l : List Mov) (j : Nat) :
    (l.map (fun r => if r.item_id = j then r.quantity else 0)).sum =
      ((l.filter (fun r => r.item_id == j)).map (fun r => r.quantity)).sum := by
  induction l with
  | nil => rfl
  | cons a t ih =>
    by_cases ha : a.item_id = j
    · simp [List.filter_cons, ha, ih]
    · simp [List.filter_cons, ha, ih]

/-! ### Characterisation of the resolver loops -/

/-- The item's current ledger average, defaulting to 0 when absent (only used
to state results of loops that are known not to fail). -/
def avgD (s : Stock) (item_id : Nat) : ℚ :=
  match s.find_item item_id with
  | some p => p.average_cost
  | none => 0

/-- Keyed updates of one movement by a family of per-row writes, one row at a
time in row order (the functional form of the resolver loops' `self.at`
writes). -/
def chainUpd (F : Mov → Mov → Mov) (rows : List Mov) (m : Mov) : Mov :=
  rows.foldl (fun x r => updIfId r.movement_id (F r) x) m

theorem get_stock_average_of_exists (s : Stock) (item_id : Nat)
    (h : s.item_id_exists item_id = true) :
    s.get_stock_average item_id = .ok (avgD s item_id) := by
  unfold Stock.get_stock_average avgD
  unfold Stock.item_id_exists at h
  cases hf : s.find_item item_id with
  | none => rw [hf] at h; cases h
  | some p => rfl

theorem get_stock_average_ok_exists (s : Stock) (item_id : Nat) (a : ℚ)
    (h : s.get_stock_average item_id = .ok a) :
    s.item_id_exists item_id = true := by
  unfold Stock.get_stock_average at h
  unfold Stock.item_id_exists
  cases hf : s.find_item item_id with
  | none => rw [hf] at h; cases h
  | some p => rfl

theorem get_stock_average_error_kind (s : Stock) (item_id : Nat) (e : Err)
    (h : s.get_stock_average item_id = .error e) : e = .unknownItem item_id := by
  unfold Stock.get_stock_average at h
  cases hf : s.find_item item_id with
  | none => rw [hf] at h; cases h; rfl
  | some p => rw [hf] at h; cases h

theorem applyInputs_ok_avail (stock : Stock) :
    ∀ (rows movs : List Mov) (acc : ℚ) (movs2 : List Mov) (acc2 : ℚ),
      applyInputs stock movs rows acc = .ok (movs2, acc2) →
      ∀ r ∈ rows, stock.item_id_exists r.item_id = true := by
  intro rows
  induction rows with
  | nil => intro movs acc movs2 acc2 h r hr; cases hr
  | cons r0 rest ih =>
    intro movs acc movs2 acc2 h r hr
    simp only [applyInputs] at h
    cases havg : stock.get_stock_average r0.item_id with
    | error e => rw [havg] at h; cases h
    | ok avg =>
      rw [havg] at h
      rcases List.mem_cons.mp hr with hq | hq
      · subst hq
        exact get_stock_average_ok_exists _ _ _ havg
      · exact ih _ _ _ _ h r hq

theorem applyInputs_error_kind (stock : Stock) :
    ∀ (rows movs : List Mov) (acc : ℚ) (e : Err),
      applyInputs stock movs rows acc = .error e →
      ∃ i, e = .unknownItem i := by
  intro rows
  induction rows with
  | nil => intro movs acc e h; cases h
  | cons r0 rest ih =>
    intro movs acc e h
    simp only [applyInputs] at h
    cases havg : stock.get_stock_average r0.item_id with
    | error e2 =>
      rw [havg] at h
      cases h
      exact ⟨r0.item_id, get_stock_average_error_kind _ _ _ havg⟩
    | ok avg =>
      rw [havg] at h
      exact ih _ _ _ h

theorem chainUpd_nil (F : Mov → Mov → Mov) (m : Mov) : chainUpd F [] m = m := rfl

theorem map_chainUpd_nil (F : Mov → Mov → Mov) (l : List Mov) :
    l.map (chainUpd F []) = l := by
  induction l with
  | nil => rfl
  | cons a t ih => rw [List.map_cons, chainUpd_nil, ih]

theorem applyInputs_eq (stock : Stock) :
    ∀ (rows movs : List Mov) (acc : ℚ),
      (∀ r ∈ rows, stock.item_id_exists r.item_id = true) →
      applyInputs stock movs rows acc =
        .ok (movs.map (chainUpd
              (fun r => setInputCost r.quantity (avgD stock r.item_id)) rows),
             acc + (rows.map (fun r => r.quantity * avgD stock r.item_id * (-1))).sum) := by
  intro rows
  induction rows with
  | nil =>
    intro movs acc hav
    simp only [applyInputs, map_chainUpd_nil, List.map_nil, List.sum_nil, add_zero]
  | cons r0 rest ih =>
    intro movs acc hav
    simp only [applyInputs,
      get_stock_average_of_exists stock r0.item_id (hav r0 (List.mem_cons_self _ _))]
    rw [ih _ _ (fun r hr => hav r (List.mem_cons_of_mem _ hr))]
    simp only [Except.ok.injEq, Prod.mk.injEq, List.map_map, List.map_cons,
      List.sum_cons]
    constructor
    · exact List.map_congr_left (fun a _ => rfl)
    · ring

theorem applyOutputs_eq (liberated outputs_sum : ℚ) :
    ∀ (rows movs : List Mov),
      applyOutputs liberated outputs_sum movs rows =
        movs.map (chainUpd
          (fun r => setOutputCost r.original_cost r.quantity liberated outputs_sum)
          rows) := by
  intro rows
  induction rows with
  | nil =>
    intro movs
    simp only [applyOutputs, map_chainUpd_nil]
  | cons r0 rest ih =>
    intro movs
    simp only [applyOutputs]
    rw [ih, List.map_map]
    exact List.map_congr_left (fun a _ => rfl)

theorem updIfId_movement_id (movement_id : Nat) (f : Mov → Mov)
    (hf : ∀ x, (f x).movement_id = x.movement_id) (m : Mov) :
    (updIfId movement_id f m).movement_id = m.movement_id := by
  unfold updIfId
  split
  · exact hf m
  · rfl

theorem chainUpd_movement_id (F : Mov → Mov → Mov)
    (hF : ∀ r x, (F r x).movement_id = x.movement_id) :
    ∀ (rows : List Mov) (m : Mov),
      (chainUpd F rows m).movement_id = m.movement_id := by
  intro rows
  induction rows with
  | nil => intro m; rfl
  | cons r rest ih =>
    intro m
    show (chainUpd F rest (updIfId r.movement_id (F r) m)).movement_id = m.movement_id
    rw [ih, updIfId_movement_id _ _ (hF r)]

theorem chainUpd_not_mem (F : Mov → Mov → Mov) :
    ∀ (rows : List Mov) (m : Mov),
      (∀ r ∈ rows, r.movement_id ≠ m.movement_id) → chainUpd F rows m = m := by
  intro rows
  induction rows with
  | nil => intro m _; rfl
  | cons r rest ih =>
    intro m hne
    show chainUpd F rest (updIfId r.movement_id (F r) m) = m
    have hm : (m.movement_id == r.movement_id) = false := by
      rw [beq_eq_false_iff_ne]
      exact fun hc => hne r (List.mem_cons_self _ _) hc.symm
    have step : updIfId r.movement_id (F r) m = m := by
      unfold updIfId
      rw [hm]
      simp
    rw [step]
    exact ih m (fun a ha => hne a (List.mem_cons_of_mem _ ha))

theorem chainUpd_single (F : Mov → Mov → Mov)
    (hF : ∀ r x, (F r x).movement_id = x.movement_id)
    (pre post : List Mov) (r m : Mov)
    (hpre : ∀ a ∈ pre, a.movement_id ≠ m.movement_id)
    (hr : r.movement_id = m.movement_id)
    (hpost : ∀ a ∈ post, a.movement_id ≠ m.movement_id) :
    chainUpd F (pre ++ r :: post) m = F r m := by
  unfold chainUpd
  rw [List.foldl_append]
  have h1 : pre.foldl (fun x r2 => updIfId r2.movement_id (F r2) x) m = m :=
    chainUpd_not_mem F pre m hpre
  rw [h1]
  show chainUpd F post (updIfId r.movement_id (F r) m) = F r m
  have hm : (m.movement_id == r.movement_id) = true := by simp [hr]
  have step : updIfId r.movement_id (F r) m = F r m := by
    unfold updIfId
    rw [hm]
    simp
  rw [step]
  apply chainUpd_not_mem
  intro a ha
  rw [hF r m]
  exact hpost a ha

theorem chainUpd_chassis (F : Mov → Mov → Mov)
    (hF : ∀ r x, (F r x).chassis = x.chassis) :
    ∀ (rows : List Mov) (m : Mov), (chainUpd F rows m).chassis = m.chassis := by
  intro rows
  induction rows with
  | nil => intro m; rfl
  | cons r rest ih =>
    intro m
    show (chainUpd F rest (updIfId r.movement_id (F r) m)).chassis = m.chassis
    rw [ih, chassis_updIfId _ _ (hF r)]

theorem exists_split_unique (rows : List Mov) (m : Mov) (hm : m ∈ rows)
    (hnd : (rows.map (fun x => x.movement_id)).Nodup) :
    ∃ pre post, rows = pre ++ m :: post ∧
      (∀ a ∈ pre, a.movement_id ≠ m.movement_id) ∧
      (∀ a ∈ post, a.movement_id ≠ m.movement_id) := by
  obtain ⟨pre, post, rfl⟩ := List.append_of_mem hm
  refine ⟨pre, post, rfl, ?_, ?_⟩
  · intro a ha hcon
    simp only [List.map_append, List.map_cons, List.nodup_append,
      List.nodup_cons] at hnd
    exact hnd.2.2 (hcon ▸ List.mem_map_of_mem (fun x => x.movement_id) ha)
      (List.mem_cons_self _ _)
  · intro a ha hcon
    simp only [List.map_append, List.map_cons, List.nodup_append,
      List.nodup_cons] at hnd
    exact hnd.2.1.1 (hcon.symm ▸ List.mem_map_of_mem (fun x => x.movement_id) ha)

/-- Value conservation of the shared resolver core: after the input loop
(accumulating `acc`) and the output loop (distributing `acc` in proportion
`original_cost / oc`), the final `total_cost` of the output movements sums to
`acc` and that of the input movements sums to `-acc`, provided movement ids
are unique, no movement is both an input and an output, and the outputs'
original-cost sum `oc` is nonzero. -/
theorem conserve_core (stock : Stock) (movs movs2 : List Mov)
    (pIn pOut : Mov → Bool) (acc oc : ℚ)
    (hnd : (movs.map (fun m => m.movement_id)).Nodup)
    (hdisj : ∀ m ∈ movs, ¬(pIn m = true ∧ pOut m = true))
    (hpin : ∀ a b : Mov, a.chassis = b.chassis → pIn a = pIn b)
    (hpout : ∀ a b : Mov, a.chassis = b.chassis → pOut a = pOut b)
    (hoc : oc = ((movs.filter pOut).map (fun m => m.original_cost)).sum)
    (hocne : oc ≠ 0)
    (hIn : applyInputs stock movs (movs.filter pIn) 0 = .ok (movs2, acc)) :
    sumTotalBy pOut (applyOutputs acc oc movs2 (movs.filter pOut)) = acc ∧
    sumTotalBy pIn (applyOutputs acc oc movs2 (movs.filter pOut)) = -acc := by
  have hav : ∀ r ∈ movs.filter pIn, stock.item_id_exists r.item_id = true :=
    applyInputs_ok_avail stock _ _ _ _ _ hIn
  have heq := applyInputs_eq stock (movs.filter pIn) movs 0 hav
  rw [hIn] at heq
  simp only [Except.ok.injEq, Prod.mk.injEq] at heq
  obtain ⟨hmv2, hacc⟩ := heq
  have hout_eq : applyOutputs acc oc movs2 (movs.filter pOut) =
      movs.map (fun m =>
        chainUpd (fun r => setOutputCost r.original_cost r.quantity acc oc)
          (movs.filter pOut)
          (chainUpd (fun r => setInputCost r.quantity (avgD stock r.item_id))
            (movs.filter pIn) m)) := by
    rw [applyOutputs_eq, hmv2, List.map_map]
    exact List.map_congr_left (fun a _ => rfl)
  have hnd_in : ((movs.filter pIn).map (fun m => m.movement_id)).Nodup :=
    hnd.sublist ((List.filter_sublist movs).map (fun m => m.movement_id))
  have hnd_out : ((movs.filter pOut).map (fun m => m.movement_id)).Nodup :=
    hnd.sublist ((List.filter_sublist movs).map (fun m => m.movement_id))
  have hptIn : ∀ m, m ∈ movs → pIn m = true →
      chainUpd (fun r => setOutputCost r.original_cost r.quantity acc oc)
        (movs.filter pOut)
        (chainUpd (fun r => setInputCost r.quantity (avgD stock r.item_id))
          (movs.filter pIn) m) =
      setInputCost m.quantity (avgD stock m.item_id) m := by
    intro m hm hpm
    have hmem : m ∈ movs.filter pIn := List.mem_filter.mpr ⟨hm, hpm⟩
    obtain ⟨pre, post, hsp, hpre, hpost⟩ := exists_split_unique _ m hmem hnd_in
    have h1 : chainUpd (fun r => setInputCost r.quantity (avgD stock r.item_id))
        (movs.filter pIn) m = setInputCost m.quantity (avgD stock m.item_id) m := by
      rw [hsp]
      exact chainUpd_single
        (fun r => setInputCost r.quantity (avgD stock r.item_id))
        (fun r x => rfl) pre post m m hpre rfl hpost
    rw [h1]
    apply chainUpd_not_mem
    intro a ha hcon
    have ha2 := List.mem_filter.mp ha
    have haid : a.movement_id = m.movement_id := hcon
    have haeq : a = m := List.inj_on_of_nodup_map hnd ha2.1 hm haid
    rw [haeq] at ha2
    exact hdisj m hm ⟨hpm, ha2.2⟩
  have hptOut : ∀ m, m ∈ movs → pOut m = true →
      chainUpd (fun r => setOutputCost r.original_cost r.quantity acc oc)
        (movs.filter pOut)
        (chainUpd (fun r => setInputCost r.quantity (avgD stock r.item_id))
          (movs.filter pIn) m) =
      setOutputCost m.original_cost m.quantity acc oc m := by
    intro m hm hpm
    have h1 : chainUpd (fun r => setInputCost r.quantity (avgD stock r.item_id))
        (movs.filter pIn) m = m := by
      apply chainUpd_not_mem
      intro a ha hcon
      have ha2 := List.mem_filter.mp ha
      have haeq : a = m := List.inj_on_of_nodup_map hnd ha2.1 hm hcon
      rw [haeq] at ha2
      exact hdisj m hm ⟨ha2.2, hpm⟩
    rw [h1]
    have hmem : m ∈ movs.filter pOut := List.mem_filter.mpr ⟨hm, hpm⟩
    obtain ⟨pre, post, hsp, hpre, hpost⟩ := exists_split_unique _ m hmem hnd_out
    rw [hsp]
    exact chainUpd_single
      (fun r => setOutputCost r.original_cost r.quantity acc oc)
      (fun r x => rfl) pre post m m hpre rfl hpost
  have hFch : ∀ m : Mov,
      (chainUpd (fun r => setOutputCost r.original_cost r.quantity acc oc)
        (movs.filter pOut)
        (chainUpd (fun r => setInputCost r.quantity (avgD stock r.item_id))
          (movs.filter pIn) m)).chassis = m.chassis := by
    intro m
    exact (chainUpd_chassis
        (fun r => setOutputCost r.original_cost r.quantity acc oc)
        (fun r x => rfl) _ _).trans
      (chainUpd_chassis
        (fun r => setInputCost r.quantity (avgD stock r.item_id))
        (fun r x => rfl) _ _)
  have hfilter : ∀ (p : Mov → Bool),
      (∀ a b : Mov, a.chassis = b.chassis → p a = p b) →
      (movs.map (fun m =>
        chainUpd (fun r => setOutputCost r.original_cost r.quantity acc oc)
          (movs.filter pOut)
          (chainUpd (fun r => setInputCost r.quantity (avgD stock r.item_id))
            (movs.filter pIn) m))).filter p =
      (movs.filter p).map (fun m =>
        chainUpd (fun r => setOutputCost r.original_cost r.quantity acc oc)
          (movs.filter pOut)
          (chainUpd (fun r => setInputCost r.quantity (avgD stock r.item_id))
            (movs.filter pIn) m)) := by
    intro p hp
    rw [List.filter_map]
    congr 1
    apply List.filter_congr
    intro a _
    exact hp _ _ (hFch a)
  constructor
  · unfold sumTotalBy
    rw [hout_eq, hfilter pOut hpout, List.map_map]
    simp only [Function.comp_def]
    rw [List.map_congr_left (fun (m : Mov) (hm : m ∈ movs.filter pOut) =>
      show (chainUpd (fun r => setOutputCost r.original_cost r.quantity acc oc)
          (movs.filter pOut)
          (chainUpd (fun r => setInputCost r.quantity (avgD stock r.item_id))
            (movs.filter pIn) m)).total_cost = acc / oc * m.original_cost from by
        rw [hptOut m (List.mem_filter.mp hm).1 (List.mem_filter.mp hm).2]
        show acc * (m.original_cost / oc) = acc / oc * m.original_cost
        ring)]
    rw [sum_map_mul_left_q, ← hoc]
    exact div_mul_cancel₀ acc hocne
  · unfold sumTotalBy
    rw [hout_eq, hfilter pIn hpin, List.map_map]
    simp only [Function.comp_def]
    rw [List.map_congr_left (fun (m : Mov) (hm : m ∈ movs.filter pIn) =>
      show (chainUpd (fun r => setOutputCost r.original_cost r.quantity acc oc)
          (movs.filter pOut)
          (chainUpd (fun r => setInputCost r.quantity (avgD stock r.item_id))
            (movs.filter pIn) m)).total_cost =
        m.quantity * avgD stock m.item_id from by
        rw [hptIn m (List.mem_filter.mp hm).1 (List.mem_filter.mp hm).2]
        rfl)]
    have h2 : acc =
        -(((movs.filter pIn).map (fun r => r.quantity * avgD stock r.item_id)).sum) := by
      rw [hacc, zero_add, sum_map_neg_q]
    rw [h2, neg_neg]

/-! ### The sort order -/

/-- The sort key of `order_by_correct_movement_date`. -/
def movKey (m : Mov) : Date × Nat := (m.correct_movement_date, m.movement_id)

/-- `movLE` as a relation. -/
def movLEP (a b : Mov) : Prop := movLE a b = true

theorem date_eq_iff (a b : Date) :
    a = b ↔ a.year = b.year ∧ a.month = b.month ∧ a.day = b.day := by
  constructor
  · rintro rfl
    exact ⟨rfl, rfl, rfl⟩
  · rintro ⟨h1, h2, h3⟩
    cases a
    cases b
    simp only at h1 h2 h3
    rw [h1, h2, h3]

theorem movLE_total (a b : Mov) : movLE a b = true ∨ movLE b a = true := by
  simp only [movLE, dateLtB, Bool.or_eq_true, Bool.and_eq_true,
    decide_eq_true_eq, date_eq_iff]
  omega

theorem movLE_trans (a b c : Mov) (h1 : movLE a b = true) (h2 : movLE b c = true) :
    movLE a c = true := by
  simp only [movLE, dateLtB, Bool.or_eq_true, Bool.and_eq_true,
    decide_eq_true_eq, date_eq_iff] at h1 h2 ⊢
  omega

theorem movLE_antisymm_id (a b : Mov) (h1 : movLE a b = true)
    (h2 : movLE b a = true) : a.movement_id = b.movement_id := by
  simp only [movLE, dateLtB, Bool.or_eq_true, Bool.and_eq_true,
    decide_eq_true_eq, date_eq_iff] at h1 h2
  omega

theorem insertSorted_perm (m : Mov) (l : List Mov) :
    (insertSorted m l).Perm (m :: l) := by
  induction l with
  | nil => exact List.Perm.refl _
  | cons a t ih =>
    unfold insertSorted
    split
    · exact List.Perm.refl _
    · exact (ih.cons a).trans (List.Perm.swap m a t)

theorem sortMovs_perm (l : List Mov) : (sortMovs l).Perm l := by
  induction l with
  | nil => exact List.Perm.refl _
  | cons a t ih =>
    exact (insertSorted_perm a (sortMovs t)).trans (ih.cons a)

theorem pairwise_insertSorted (m : Mov) (l : List Mov)
    (h : l.Pairwise movLEP) : (insertSorted m l).Pairwise movLEP := by
  induction l with
  | nil => simp [insertSorted, List.pairwise_cons, movLEP]
  | cons a t ih =>
    have hhead := (List.pairwise_cons.mp h).1
    have htail := (List.pairwise_cons.mp h).2
    unfold insertSorted
    split
    · rename_i hma
      apply List.pairwise_cons.mpr
      refine ⟨?_, h⟩
      intro y hy
      rcases List.mem_cons.mp hy with hy | hy
      · rw [hy]
        exact hma
      · exact movLE_trans m a y hma (hhead y hy)
    · rename_i hma
      have ham : movLE a m = true := by
        rcases movLE_total m a with hc | hc
        · exact absurd hc hma
        · exact hc
      apply List.pairwise_cons.mpr
      constructor
      · intro y hy
        have hy2 := (insertSorted_perm m t).mem_iff.mp hy
        rcases List.mem_cons.mp hy2 with hy3 | hy3
        · rw [hy3]
          exact ham
        · exact hhead y hy3
      · exact ih htail

theorem sortMovs_sorted (l : List Mov) : (sortMovs l).Pairwise movLEP := by
  induction l with
  | nil => exact List.Pairwise.nil
  | cons a t ih => exact pairwise_insertSorted a (sortMovs t) ih

theorem sorted_perm_nodup_unique :
    ∀ (l1 l2 : List Mov), l1.Perm l2 → l1.Pairwise movLEP →
      l2.Pairwise movLEP → (l1.map (fun m => m.movement_id)).Nodup →
      l1 = l2 := by
  intro l1
  induction l1 with
  | nil =>
    intro l2 hp _ _ _
    exact hp.nil_eq
  | cons a t1 ih =>
    intro l2 hp hs1 hs2 hnd
    cases l2 with
    | nil =>
      have := hp.length_eq
      simp at this
    | cons b t2 =>
      have hab : a = b := by
        by_contra hne
        have hma : a ∈ b :: t2 := hp.mem_iff.mp (List.mem_cons_self a t1)
        have hmb : b ∈ a :: t1 := hp.symm.mem_iff.mp (List.mem_cons_self b t2)
        have ha2 : a ∈ t2 := by
          rcases List.mem_cons.mp hma with h | h
          · exact absurd h hne
          · exact h
        have hb1 : b ∈ t1 := by
          rcases List.mem_cons.mp hmb with h | h
          · exact absurd h.symm hne
          · exact h
        have h1 : movLE a b = true := (List.pairwise_cons.mp hs1).1 b hb1
        have h2 : movLE b a = true := (List.pairwise_cons.mp hs2).1 a ha2
        have hid : a.movement_id = b.movement_id := movLE_antisymm_id a b h1 h2
        simp only [List.map_cons, List.nodup_cons] at hnd
        exact hnd.1 (hid ▸ List.mem_map_of_mem (fun m => m.movement_id) hb1)
      subst hab
      have ht : t1.Perm t2 := hp.cons_inv
      simp only [List.map_cons, List.nodup_cons] at hnd
      rw [ih t2 ht (List.pairwise_cons.mp hs1).2 (List.pairwise_cons.mp hs2).2 hnd.2]

theorem movLE_congr_key (a a2 b b2 : Mov) (ha : movKey a = movKey a2)
    (hb : movKey b = movKey b2) : movLE a b = movLE a2 b2 := by
  have ha1 : a.correct_movement_date = a2.correct_movement_date :=
    congrArg Prod.fst ha
  have ha2' : a.movement_id = a2.movement_id := congrArg Prod.snd ha
  have hb1 : b.correct_movement_date = b2.correct_movement_date :=
    congrArg Prod.fst hb
  have hb2' : b.movement_id = b2.movement_id := congrArg Prod.snd hb
  unfold movLE
  rw [ha1, ha2', hb1, hb2']

theorem pairwise_movLEP_map (f : Mov → Mov) (hf : ∀ m, movKey (f m) = movKey m)
    (l : List Mov) (h : l.Pairwise movLEP) : (l.map f).Pairwise movLEP := by
  rw [List.pairwise_map]
  apply h.imp
  intro a b hab
  unfold movLEP at hab ⊢
  rw [movLE_congr_key (f a) a (f b) b (hf a) (hf b)]
  exact hab

/-! ### GroupIdentifier -/

theorem assignLoop_eq_spec :
    ∀ (rows : List Mov) (cur : Option Nat) (lw : Bool),
      assignLoop rows cur lw = specGroupAssign rows cur lw := by
  intro rows
  induction rows with
  | nil => intro cur lw; rfl
  | cons row rest ih =>
    intro cur lw
    simp only [assignLoop, specGroupAssign]
    by_cases hopen : (cur.isNone || (row.is_dismantling_input && lw)) = true
    · by_cases hout : row.is_dismantling_output = true
      · simp [hopen, hout, ih]
      · simp only [Bool.not_eq_true] at hout
        simp [hopen, hout, ih]
    · simp only [Bool.not_eq_true] at hopen
      by_cases hout : row.is_dismantling_output = true
      · simp [hopen, hout, ih]
      · simp only [Bool.not_eq_true] at hout
        simp [hopen, hout, ih]

theorem assignLoop_all_some :
    ∀ (rows : List Mov) (cur : Option Nat) (lw : Bool),
      ∀ p ∈ assignLoop rows cur lw, p.2.isSome = true := by
  intro rows
  induction rows with
  | nil => intro cur lw p hp; cases hp
  | cons row rest ih =>
    intro cur lw p hp
    simp only [assignLoop, List.mem_cons] at hp
    rcases hp with hp | hp
    · rw [hp]
      cases cur with
      | none => simp
      | some c =>
        dsimp only
        split
        · simp
        · simp
    · exact ih _ _ p hp

theorem assignLoop_keys :
    ∀ (rows : List Mov) (cur : Option Nat) (lw : Bool),
      (assignLoop rows cur lw).map Prod.fst = rows.map (fun m => m.movement_id) := by
  intro rows
  induction rows with
  | nil => intro cur lw; rfl
  | cons row rest ih =>
    intro cur lw
    simp only [assignLoop, List.map_cons]
    rw [ih]

theorem set_dismantling_id_assigned (movs : List Mov) (m : Mov)
    (hm : m ∈ set_dismantling_id movs) (hd : m.is_dismantling = true) :
    m.dismantling_id.isSome = true := by
  simp only [set_dismantling_id, List.mem_map] at hm
  obtain ⟨x, hx, hxm⟩ := hm
  have hxd : x.is_dismantling = true := by
    rw [← hd, ← hxm]
    cases hl : (assignLoop (movs.filter (fun m2 => m2.is_dismantling)) none false).lookup
        x.movement_id with
    | none => simp [hl]
    | some g => simp [hl]
  have hxf : x ∈ movs.filter (fun m2 => m2.is_dismantling) :=
    List.mem_filter.mpr ⟨hx, hxd⟩
  have hkey : x.movement_id ∈
      (assignLoop (movs.filter (fun m2 => m2.is_dismantling)) none false).map Prod.fst := by
    rw [assignLoop_keys]
    exact List.mem_map_of_mem (fun m2 => m2.movement_id) hxf
  have hsome := lookup_isSome_of_mem_keys _ _ hkey
  cases hl : (assignLoop (movs.filter (fun m2 => m2.is_dismantling)) none false).lookup
      x.movement_id with
  | none => rw [hl] at hsome; cases hsome
  | some g =>
    have hpair := lookup_mem_pairs _ _ _ hl
    have hg := assignLoop_all_some _ none false _ hpair
    rw [← hxm]
    simp only [hl]
    exact hg

/-! ### Pipeline-level facts -/

theorem stockMovementsInit_sorted (raws : List RawMovement) :
    (stockMovementsInit raws).Pairwise movLEP := by
  unfold stockMovementsInit set_movement_cost_is_already_correct
  apply pairwise_movLEP_map
  · intro m
    rfl
  · simp only [set_dismantling_id]
    apply pairwise_movLEP_map
    · intro m
      cases hl : (assignLoop ((sortMovs (raws.map classifyInit)).filter
          (fun m2 => m2.is_dismantling)) none false).lookup m.movement_id with
      | none => simp [hl]
      | some g => simp [hl, movKey]
    · exact sortMovs_sorted _

theorem stockMovementsInit_perm_invariant (raws1 raws2 : List RawMovement)
    (hp : raws1.Perm raws2)
    (hnd : (raws1.map (fun r => r.movement_id)).Nodup) :
    stockMovementsInit raws1 = stockMovementsInit raws2 := by
  unfold stockMovementsInit
  suffices h : sortMovs (raws1.map classifyInit) = sortMovs (raws2.map classifyInit) by
    rw [h]
  apply sorted_perm_nodup_unique
  · exact (sortMovs_perm _).trans ((hp.map classifyInit).trans (sortMovs_perm _).symm)
  · exact sortMovs_sorted _
  · exact sortMovs_sorted _
  · have h1 : (raws1.map classifyInit).map (fun m => m.movement_id) =
        raws1.map (fun r => r.movement_id) := by
      rw [List.map_map]
      rfl
    have hperm : ((sortMovs (raws1.map classifyInit)).map
        (fun m => m.movement_id)).Perm (raws1.map (fun r => r.movement_id)) := by
      rw [← h1]
      exact (sortMovs_perm _).map _
    exact hperm.nodup_iff.mpr hnd

theorem map_movKey_of_map_chassis (l1 l2 : List Mov)
    (h : l1.map Mov.chassis = l2.map Mov.chassis) :
    l1.map movKey = l2.map movKey := by
  have hcomp : ∀ l : List Mov,
      l.map movKey = (l.map Mov.chassis).map (fun c => (c.2.1, c.1)) := by
    intro l
    rw [List.map_map]
    rfl
  rw [hcomp l1, hcomp l2, h]

theorem mem_pipeline_fields (raws : List RawMovement) (m : Mov)
    (hm : m ∈ stockMovementsInit raws) :
    ∃ r ∈ raws,
      m.is_entry = strContains r.movement_history "RECEBIMENTO" ∧
      m.is_production_order_input =
        (strContains r.movement_history "REQUISICAO" && r.production_order_id.isSome) ∧
      m.is_dismantling = strContainsCI r.document_number "DESMONTE" ∧
      m.movement_history = r.movement_history ∧
      m.production_order_id = r.production_order_id ∧
      m.document_number = r.document_number := by
  simp only [stockMovementsInit, set_movement_cost_is_already_correct,
    set_dismantling_id, List.mem_map, List.map_map] at hm
  obtain ⟨y, hy, hym⟩ := hm
  have hy2 : y ∈ sortMovs (raws.map classifyInit) := hy
  have hy3 : y ∈ raws.map classifyInit := (sortMovs_perm _).mem_iff.mp hy2
  obtain ⟨r, hr, hry⟩ := List.mem_map.mp hy3
  refine ⟨r, hr, ?_⟩
  have hfields :
      m.is_entry = y.is_entry ∧
      m.is_production_order_input = y.is_production_order_input ∧
      m.is_dismantling = y.is_dismantling ∧
      m.movement_history = y.movement_history ∧
      m.production_order_id = y.production_order_id ∧
      m.document_number = y.document_number := by
    rw [← hym]
    cases hl : (assignLoop ((sortMovs (raws.map classifyInit)).filter
        (fun m2 => m2.is_dismantling)) none false).lookup y.movement_id with
    | none => simp [hl]
    | some g => simp [hl]
  rw [← hry] at hfields
  exact hfields

deriving instance DecidableEq for Except

/-! ### Concrete data for witnesses and counterexamples -/

/-- A movement row with the given identity fields and every flag cleared. -/
def baseMov (movement_id : Nat) (d : Date) (item_id : Nat) (q t o : ℚ) : Mov where
  movement_id := movement_id
  correct_movement_date := d
  production_order_id := none
  document_number := ""
  movement_history := ""
  item_id := item_id
  item_description := "item"
  quantity := q
  average_cost := 0
  total_cost := t
  original_cost := o
  correct_cost := none
  is_dismantling := false
  is_dismantling_input := false
  is_dismantling_output := false
  is_production_order := false
  is_production_order_input := false
  is_production_order_output := false
  is_entry := false
  movement_cost_is_already_correct := false
  dismantling_id := none

def c1mov : Mov :=
  { baseMov 1 ⟨2024, 1, 5⟩ 5 1 100 1 with
    movement_history := "INVENTARIO", movement_cost_is_already_correct := true }

def c1stock : Stock := [⟨5, "x", 0, 0, 0, 0⟩]

def c2movA : Mov :=
  { baseMov 1 ⟨2024, 1, 5⟩ 1 (-1) (-2) 2 with
    production_order_id := some 7, is_production_order := true,
    is_production_order_input := true }

def c2movB : Mov :=
  { baseMov 2 ⟨2024, 1, 6⟩ 2 (-1) (-2) 2 with
    production_order_id := some 7, is_production_order := true,
    is_production_order_input := true, is_production_order_output := true }

def c2stock : Stock := [⟨1, "a", 10, 5, 50, 50⟩, ⟨2, "b", 10, 5, 50, 50⟩]

def c3a : Mov :=
  { baseMov 1 ⟨2024, 1, 5⟩ 1 (-2) (-5) (-5) with
    is_dismantling := true, is_dismantling_input := true,
    dismantling_id := some 7, movement_cost_is_already_correct := true }

def c3b : Mov :=
  { baseMov 2 ⟨2024, 1, 6⟩ 2 2 5 3 with
    is_dismantling := true, is_dismantling_output := true,
    dismantling_id := some 7, movement_cost_is_already_correct := true }

def c3stock : Stock := [⟨1, "a", 2, 3, 6, 6⟩]

def c4raw : RawMovement where
  movement_id := 1
  movement_date := ⟨2024, 1, 5⟩
  production_order_id := some 9
  entry_date := none
  document_number := "doc"
  movement_history := "recebimento requisicao"
  item_id := 1
  item_description := "item"
  quantity := 1
  average_cost := 0
  total_cost := 7
  correct_cost := none

def c6m1 : Mov :=
  { baseMov 1 ⟨2024, 1, 5⟩ 1 1 10 10 with movement_cost_is_already_correct := true }

def c6m2 : Mov :=
  { baseMov 2 ⟨2024, 1, 20⟩ 1 1 20 20 with movement_cost_is_already_correct := true }

def c6m3 : Mov :=
  { baseMov 3 ⟨2024, 3, 2⟩ 1 1 5 5 with movement_cost_is_already_correct := true }

def c10mov : Mov := baseMov 1 ⟨2024, 1, 5⟩ 1 2 50 50

def c10stock : Stock := [⟨1, "a", 2, 3, 6, 6⟩]

/-- Decomposition of chassis equality into the field equalities the claim
proofs use. -/
theorem chassis_eq_fields (a b : Mov) (h : a.chassis = b.chassis) :
    a.movement_id = b.movement_id ∧
    a.is_dismantling_input = b.is_dismantling_input ∧
    a.is_dismantling_output = b.is_dismantling_output ∧
    a.is_production_order_input = b.is_production_order_input ∧
    a.is_production_order_output = b.is_production_order_output ∧
    a.dismantling_id = b.dismantling_id ∧
    a.production_order_id = b.production_order_id ∧
    a.original_cost = b.original_cost := by
  unfold Mov.chassis at h
  simp only [Prod.mk.injEq] at h
  obtain ⟨h1, h2, h3, h4, h5, h6, h7, h8, h9, h10, h11, h12, h13, h14, h15,
    h16, h17, h18⟩ := h
  exact ⟨h1, h12, h13, h15, h16, h18, h3, h9⟩

section DecideRat

attribute [local semireducible] Rat.add Rat.sub Rat.mul Rat.inv

/-! ### Claim theorems -/

/-- C1: at a movement whose history contains "INVENT" and whose relative
deviation `|originalCost - totalCost| / |originalCost|` exceeds 10 (here
original 1, current 100), `insert_movement_to_stock` reverts the movement
record's `total_cost` to `original_cost` (1), but the ledger transaction is
applied with the stale pre-revert cost (100): the ledger position receives
100, not the reverted 1, because `movement` is a detached row copy. -/
theorem C1_inventory_guard_divergence :
    (insert_movement_to_stock [c1mov] 1 c1stock).map
        (fun r => (r.1.map (fun m => m.total_cost),
                   r.2.map (fun p => p.total_cost))) =
      .ok ([1], [100]) ∧
    strContains c1mov.movement_history "INVENT" = true ∧
    |(c1mov.original_cost - c1mov.total_cost) / c1mov.original_cost| > 10 ∧
    (1 : ℚ) ≠ 100 := by
  refine ⟨by decide, by decide, by decide, by decide⟩

/-- C2 counterexample: a production order (id 7) that resolves without error,
with non-empty inputs and non-empty outputs, for which the outputs' final
`total_cost` sum (10) is not the negation of the inputs' final sum (5):
movement 2 passes both the input and the output text test, so the output loop
overwrites its input-corrected cost. -/
theorem C2_counterexample :
    (correct_production_order [c2movA, c2movB] (some 7) c2stock).map
        (fun l => (sumTotalBy (fun m => m.is_production_order_output &&
                      (m.production_order_id == some 7)) l,
                   sumTotalBy (fun m => m.is_production_order_input &&
                      (m.production_order_id == some 7)) l)) =
      .ok (10, 5) ∧
    [c2movA, c2movB].filter (fun m => m.is_production_order_input &&
      (m.production_order_id == some 7)) ≠ [] ∧
    [c2movA, c2movB].filter (fun m => m.is_production_order_output &&
      (m.production_order_id == some 7)) ≠ [] ∧
    (10 : ℚ) ≠ -(5 : ℚ) := by
  refine ⟨by decide, by decide, by decide, by decide⟩

/-- C2 (amended): for every dismantling group and every production order whose
resolution returns without error, **provided** movement ids are unique, no
selected movement is flagged both input and output, and the outputs'
`original_cost` sum is nonzero, the sum of the outputs' resolved `total_cost`
equals the negation of the sum of the inputs' resolved `total_cost`, exactly,
in exact (rational) arithmetic. -/
theorem C2_value_conservation_amended :
    (∀ (movs : List Mov) (stock : Stock) (d : Nat) (movs' : List Mov),
      (movs.map (fun m => m.movement_id)).Nodup →
      (∀ m ∈ movs,
        ¬(m.is_dismantling_input = true ∧ m.is_dismantling_output = true)) →
      ((movs.filter (fun m => m.is_dismantling_output &&
          (m.dismantling_id == some d))).map (fun m => m.original_cost)).sum ≠ 0 →
      correct_dismantling movs (some d) stock = .ok movs' →
      sumTotalBy (fun m => m.is_dismantling_output &&
          (m.dismantling_id == some d)) movs' =
        -(sumTotalBy (fun m => m.is_dismantling_input &&
          (m.dismantling_id == some d)) movs')) ∧
    (∀ (movs : List Mov) (stock : Stock) (pid : Nat) (movs' : List Mov),
      (movs.map (fun m => m.movement_id)).Nodup →
      (∀ m ∈ movs,
        ¬(m.is_production_order_input = true ∧ m.is_production_order_output = true)) →
      ((movs.filter (fun m => m.is_production_order_output &&
          (m.production_order_id == some pid))).map (fun m => m.original_cost)).sum ≠ 0 →
      correct_production_order movs (some pid) stock = .ok movs' →
      sumTotalBy (fun m => m.is_production_order_output &&
          (m.production_order_id == some pid)) movs' =
        -(sumTotalBy (fun m => m.is_production_order_input &&
          (m.production_order_id == some pid)) movs')) := by
  constructor
  · intro movs stock d movs' hnd hdisj hocne hok
    simp only [correct_dismantling, selectByDismantlingId, List.filter_filter] at hok
    split at hok
    · cases hok
    · split at hok
      · cases hok
      · split at hok
        · cases hok
        · rename_i pair movs3 cost happ
          simp only [Except.ok.injEq] at hok
          rw [← hok]
          have hcc := conserve_core stock movs movs3
            (fun m => m.is_dismantling_input && (m.dismantling_id == some d))
            (fun m => m.is_dismantling_output && (m.dismantling_id == some d))
            cost
            (((movs.filter (fun m => m.is_dismantling_output &&
              (m.dismantling_id == some d))).map (fun m => m.original_cost)).sum)
            hnd
            (fun m hm hc => by
              simp only [Bool.and_eq_true] at hc
              exact hdisj m hm ⟨hc.1.1, hc.2.1⟩)
            (fun a b hab => by
              obtain ⟨_, hin, _, _, _, hdid, _, _⟩ := chassis_eq_fields a b hab
              simp only [hin, hdid])
            (fun a b hab => by
              obtain ⟨_, _, hout, _, _, hdid, _, _⟩ := chassis_eq_fields a b hab
              simp only [hout, hdid])
            rfl hocne happ
          rw [hcc.1, hcc.2, neg_neg]
  · intro movs stock pid movs' hnd hdisj hocne hok
    simp only [correct_production_order, selectByProductionOrderId,
      List.filter_filter] at hok
    split at hok
    · cases hok
    · split at hok
      · cases hok
      · split at hok
        · cases hok
        · rename_i pair movs3 cost happ
          simp only [Except.ok.injEq] at hok
          rw [← hok]
          have hcc := conserve_core stock movs movs3
            (fun m => m.is_production_order_input && (m.production_order_id == some pid))
            (fun m => m.is_production_order_output && (m.production_order_id == some pid))
            cost
            (((movs.filter (fun m => m.is_production_order_output &&
              (m.production_order_id == some pid))).map (fun m => m.original_cost)).sum)
            hnd
            (fun m hm hc => by
              simp only [Bool.and_eq_true] at hc
              exact hdisj m hm ⟨hc.1.1, hc.2.1⟩)
            (fun a b hab => by
              obtain ⟨_, _, _, hin, _, _, hpid, _⟩ := chassis_eq_fields a b hab
              simp only [hin, hpid])
            (fun a b hab => by
              obtain ⟨_, _, _, _, hout, _, hpid, _⟩ := chassis_eq_fields a b hab
              simp only [hout, hpid])
            rfl hocne happ
          rw [hcc.1, hcc.2, neg_neg]

def c2w1 : Mov :=
  { baseMov 1 ⟨2024, 1, 5⟩ 1 (-1) (-2) (-2) with
    production_order_id := some 8, is_production_order := true,
    is_production_order_input := true }

def c2w2 : Mov :=
  { baseMov 2 ⟨2024, 1, 6⟩ 2 2 5 3 with
    production_order_id := some 8, is_production_order := true,
    is_production_order_output := true }

def c2wstock : Stock := [⟨1, "a", 2, 4, 8, 8⟩]

def c2dres : List Mov :=
  [{ c3a with total_cost := -6, average_cost := 3 },
   { c3b with total_cost := 6, average_cost := 3 }]

def c2wres : List Mov :=
  [{ c2w1 with
      total_cost := -4
      average_cost := 4
      movement_cost_is_already_correct := true },
   { c2w2 with
      total_cost := 4
      average_cost := 2
      movement_cost_is_already_correct := true }]

/-- Witness for the amended C2: both halves applied to concrete resolved
groups (a dismantling group and a production order). -/
theorem C2_value_conservation_witness :
    (sumTotalBy (fun m => m.is_dismantling_output && (m.dismantling_id == some 7))
        c2dres =
      -(sumTotalBy (fun m => m.is_dismantling_input && (m.dismantling_id == some 7))
        c2dres)) ∧
    (sumTotalBy (fun m => m.is_production_order_output && (m.production_order_id == some 8))
        c2wres =
      -(sumTotalBy (fun m => m.is_production_order_input && (m.production_order_id == some 8))
        c2wres)) := by
  constructor
  · exact C2_value_conservation_amended.1 [c3a, c3b] c3stock 7 c2dres
      (by decide) (by decide) (by decide) (by decide)
  · exact C2_value_conservation_amended.2 [c2w1, c2w2] c2wstock 8 c2wres
      (by decide) (by decide) (by decide) (by rfl)

/-- C3 counterexample: a dismantling group (id 7) whose two movements are both
marked `movement_cost_is_already_correct`, on which `correct_dismantling`
nevertheless rewrites the cost fields: the total costs change from `[-5, 5]`
to `[-6, 6]`, so the resolution is not a no-op. -/
theorem C3_counterexample :
    ([c3a, c3b].all (fun m => m.movement_cost_is_already_correct)) = true ∧
    (correct_dismantling [c3a, c3b] (some 7) c3stock).map
        (fun l => l.map (fun m => m.total_cost)) = .ok [-6, 6] ∧
    [c3a, c3b].map (fun m => m.total_cost) = [-5, 5] ∧
    ((-6 : ℚ) ≠ -5) := by
  refine ⟨by decide, by decide, by decide, by decide⟩

/-- C3 (amended): invoking `correct_dismantling` on a group whose movements
are already all `costAlreadyCorrect` raises no error (provided the group has
inputs and outputs and each input item is in the ledger), and it leaves every
non-cost field unchanged; but it is not a no-op: `total_cost`/`average_cost`
are unconditionally recomputed from the current ledger (the flag is never
consulted). -/
theorem C3_all_correct_group_resolution :
    ∀ (movs : List Mov) (stock : Stock) (d : Nat),
      movs.filter (fun m => m.dismantling_id == some d) ≠ [] →
      movs.filter (fun m => m.is_dismantling_input && (m.dismantling_id == some d)) ≠ [] →
      movs.filter (fun m => m.is_dismantling_output && (m.dismantling_id == some d)) ≠ [] →
      (∀ r ∈ movs.filter (fun m => m.is_dismantling_input && (m.dismantling_id == some d)),
        stock.item_id_exists r.item_id = true) →
      (∀ m ∈ movs.filter (fun m => m.dismantling_id == some d),
        m.movement_cost_is_already_correct = true) →
      ∃ movs', correct_dismantling movs (some d) stock = .ok movs' ∧
        movs'.map Mov.chassis = movs.map Mov.chassis := by
  intro movs stock d hsel hin hout hav _hall
  have hc1 : ¬(((movs.filter (fun m => m.dismantling_id == some d)).isEmpty) = true) := by
    cases hmm : movs.filter (fun m => m.dismantling_id == some d) with
    | nil => exact absurd hmm hsel
    | cons a t => simp
  have e1 : (movs.filter (fun a => a.is_dismantling_input &&
      (a.dismantling_id == some d))).isEmpty = false := by
    cases hmm : movs.filter (fun a => a.is_dismantling_input &&
        (a.dismantling_id == some d)) with
    | nil => exact absurd hmm hin
    | cons a t => rfl
  have e2 : (movs.filter (fun a => a.is_dismantling_output &&
      (a.dismantling_id == some d))).isEmpty = false := by
    cases hmm : movs.filter (fun a => a.is_dismantling_output &&
        (a.dismantling_id == some d)) with
    | nil => exact absurd hmm hout
    | cons a t => rfl
  have hc2 : ¬(((movs.filter (fun a => a.is_dismantling_input &&
      (a.dismantling_id == some d))).isEmpty ||
      (movs.filter (fun a => a.is_dismantling_output &&
      (a.dismantling_id == some d))).isEmpty) = true) := by
    simp [e1, e2]
  obtain ⟨movs', hres⟩ :
      ∃ movs', correct_dismantling movs (some d) stock = .ok movs' := by
    apply Exists.intro
    simp only [correct_dismantling, selectByDismantlingId, List.filter_filter]
    rw [if_neg hc1, if_neg hc2, applyInputs_eq stock _ movs 0 hav]
  exact ⟨movs', hres, correct_dismantling_chassis _ _ _ _ hres⟩

/-- Witness for the amended C3: the concrete all-correct group resolves
without error and keeps every non-cost field. -/
theorem C3_all_correct_witness :
    (correct_dismantling [c3a, c3b] (some 7) c3stock).toOption.isSome = true ∧
    (correct_dismantling [c3a, c3b] (some 7) c3stock).map
        (fun l => l.map Mov.chassis) = .ok ([c3a, c3b].map Mov.chassis) := by
  obtain ⟨movs', h1, h2⟩ := C3_all_correct_group_resolution [c3a, c3b] c3stock 7
    (by decide) (by decide) (by decide) (by decide) (by decide)
  rw [h1]
  exact ⟨rfl, by rw [Except.map, h2]⟩

/-- C4 counterexample: a movement whose history is the lower-case
"recebimento requisicao" (with a production order present): the
case-insensitive tests match "RECEBIMENTO" and "REQUISICAO", yet the
classifier leaves both `is_entry` and `is_production_order_input` false —
the history tests are case-sensitive, contrary to the claim. -/
theorem C4_counterexample :
    strContainsCI "recebimento requisicao" "RECEBIMENTO" = true ∧
    strContainsCI "recebimento requisicao" "REQUISICAO" = true ∧
    (stockMovementsInit [c4raw]).map
        (fun m => (m.is_entry, m.is_production_order_input)) = [(false, false)] ∧
    (classifyInit c4raw).production_order_id.isSome = true := by
  refine ⟨by decide, by decide, by decide, by decide⟩

/-- C4 (amended): the classifier's substring tests on `historyText` are
case-sensitive (only the `documentNumber` test for "DESMONTE" is
case-insensitive): for every movement produced by the pipeline, `is_entry`
holds iff the history contains "RECEBIMENTO" with exact case, and
`is_production_order_input` holds iff the history contains "REQUISICAO" with
exact case and a production order id is present. -/
theorem C4_case_sensitive_classification :
    ∀ (raws : List RawMovement) (m : Mov), m ∈ stockMovementsInit raws →
      m.is_entry = strContains m.movement_history "RECEBIMENTO" ∧
      m.is_production_order_input =
        (strContains m.movement_history "REQUISICAO" && m.production_order_id.isSome) ∧
      m.is_dismantling = strContainsCI m.document_number "DESMONTE" := by
  intro raws m hm
  obtain ⟨r, _hr, h1, h2, h3, h4, h5, h6⟩ := mem_pipeline_fields raws m hm
  rw [h1, h2, h3, h4, h5, h6]
  exact ⟨rfl, rfl, rfl⟩

/-- Witness for the amended C4, at the concrete lower-case movement. -/
theorem C4_classification_witness :
    (classifyInit c4raw ∈ stockMovementsInit [c4raw]) ∧
    (classifyInit c4raw).is_entry =
      strContains (classifyInit c4raw).movement_history "RECEBIMENTO" ∧
    (classifyInit c4raw).is_production_order_input =
      (strContains (classifyInit c4raw).movement_history "REQUISICAO" &&
        (classifyInit c4raw).production_order_id.isSome) ∧
    (classifyInit c4raw).is_dismantling =
      strContainsCI (classifyInit c4raw).document_number "DESMONTE" := by
  have hm : classifyInit c4raw ∈ stockMovementsInit [c4raw] := by decide
  have h := C4_case_sensitive_classification [c4raw] (classifyInit c4raw) hm
  exact ⟨hm, h.1, h.2.1, h.2.2⟩

/-- C5: applying `insert_transaction` with quantity `q2` and cost `c2` to a
position with quantity `q1` and `total_cost = q1 * a1` yields the new average
`(q1*a1 + c2)/(q1+q2)` when `q1 + q2 ≠ 0`, else `0`. -/
theorem C5_weighted_average (s : Stock) (item_id : Nat) (p : Position)
    (q1 a1 q2 c2 o2 : ℚ)
    (hfind : s.find_item item_id = some p)
    (hq : p.quantity = q1) (ht : p.total_cost = q1 * a1) :
    ∃ s2, s.insert_transaction item_id q2 c2 o2 = .ok s2 ∧
      avgD s2 item_id = if q1 + q2 = 0 then 0 else (q1 * a1 + c2) / (q1 + q2) := by
  have hex : s.item_id_exists item_id = true := by
    unfold Stock.item_id_exists
    rw [hfind]
    rfl
  refine ⟨s.map (transactRow item_id q2 c2 o2), ?_, ?_⟩
  · unfold Stock.insert_transaction
    rw [hex]
    rfl
  · unfold avgD Stock.find_item
    have hcomm : ∀ x : Position,
        ((fun x2 : Position => x2.item_id == item_id)
          (transactRow item_id q2 c2 o2 x)) = (x.item_id == item_id) := by
      intro x
      simp only [transactRow_item_id]
    rw [find?_map_comm _ _ hcomm]
    unfold Stock.find_item at hfind
    rw [hfind]
    simp only [Option.map_some']
    have hp := List.find?_some hfind
    unfold transactRow
    rw [hp]
    simp only [if_pos]
    rw [hq, ht]
    by_cases h0 : q1 + q2 = 0
    · simp [h0]
    · simp [h0]

/-- Witness for C5 at a concrete position (quantity 2, average 3) and
transaction (quantity 4, cost 10): new average (2*3+10)/(2+4) = 8/3. -/
theorem C5_weighted_average_witness :
    (Stock.insert_transaction [⟨1, "a", 2, 3, 6, 6⟩] 1 4 10 10).map
      (fun s2 => avgD s2 1) = .ok (8 / 3) := by
  obtain ⟨s2, h1, h2⟩ :=
    C5_weighted_average [⟨1, "a", 2, 3, 6, 6⟩] 1 ⟨1, "a", 2, 3, 6, 6⟩ 2 3 4 10 10
      (by decide) rfl (by decide)
  rw [h1, Except.map, h2]
  norm_num

/-- C6: for every pass that completes, the timeline receives exactly one entry
per processed movement whose `correct_movement_date` falls in a different
`(month, year)` than its predecessor's, keyed by the predecessor's month-end
date and appended before that movement is processed; no trailing entry is
appended for the final open month.  `boundaryFrom` is the spec-modelled
characterisation of those dates. -/
theorem C6_monthly_snapshots (movs : List Mov) (stock : Stock)
    (movs' : List Mov) (stock' : Stock) (res : List ResumeEntry)
    (h : correct_costs_and_generate_stocks movs stock = .ok (movs', stock', res)) :
    res.map (fun e => e.date) = boundaryFrom none movs := by
  unfold correct_costs_and_generate_stocks at h
  have h2 := drive_resume movs movs stock [] none movs' stock' res h
  simpa using h2

/-- Witness for C6: movements in Jan, Jan, Mar produce exactly one timeline
entry, dated Jan 31 (and none for the open month Mar). -/
theorem C6_monthly_snapshots_witness :
    (correct_costs_and_generate_stocks [c6m1, c6m2, c6m3] []).map
      (fun r => r.2.2.map (fun e => e.date)) = .ok [⟨2024, 1, 31⟩] := by
  have hok : correct_costs_and_generate_stocks [c6m1, c6m2, c6m3] [] =
      .ok ([c6m1, c6m2, c6m3], ([⟨1, "item", 3, 35/3, 35, 35⟩] : Stock),
        [⟨⟨2024, 1, 31⟩, 30, 30⟩]) := by rfl
  have hd := C6_monthly_snapshots _ _ _ _ _ hok
  rw [hok]
  simp only [Except.map]
  rw [hd]
  decide

/-- C7: `set_dismantling_id`'s loop agrees with the spec's GroupIdentifier
state machine (a new group opens exactly when no group is open or a
dismantling-input arrives after the current group has produced an output, and
the current group id is assigned regardless of the branch), and every
dismantling movement ends up with an assigned group id. -/
theorem C7_group_identifier :
    (∀ (rows : List Mov) (cur : Option Nat) (lw : Bool),
      assignLoop rows cur lw = specGroupAssign rows cur lw) ∧
    (∀ (movs : List Mov) (m : Mov), m ∈ set_dismantling_id movs →
      m.is_dismantling = true → m.dismantling_id.isSome = true) :=
  ⟨assignLoop_eq_spec, set_dismantling_id_assigned⟩

def g7a : Mov :=
  { baseMov 1 ⟨2024, 1, 1⟩ 1 (-1) (-1) (-1) with
    is_dismantling := true, is_dismantling_input := true }

def g7b : Mov :=
  { baseMov 2 ⟨2024, 1, 2⟩ 2 1 1 1 with
    is_dismantling := true, is_dismantling_output := true }

/-- Witness for C7 on a concrete input-then-output dismantling pair. -/
theorem C7_group_identifier_witness :
    assignLoop [g7a, g7b] none false = specGroupAssign [g7a, g7b] none false ∧
    ({ g7a with dismantling_id := some 1 } : Mov).dismantling_id.isSome = true := by
  constructor
  · exact C7_group_identifier.1 [g7a, g7b] none false
  · exact C7_group_identifier.2 [g7a, g7b] { g7a with dismantling_id := some 1 }
      (by decide) (by decide)

/-- C8: the pipeline output is sorted by non-decreasing
`correct_movement_date` with ties broken by ascending `movement_id`; for
inputs with unique movement ids the pipeline output is independent of the
input record order; and the pass never changes the `(date, id)` key sequence
of the frame. -/
theorem C8_deterministic_ordering :
    (∀ raws : List RawMovement, (stockMovementsInit raws).Pairwise movLEP) ∧
    (∀ raws1 raws2 : List RawMovement, raws1.Perm raws2 →
      (raws1.map (fun r => r.movement_id)).Nodup →
      stockMovementsInit raws1 = stockMovementsInit raws2) ∧
    (∀ (rows movs : List Mov) (stock : Stock) (movs' : List Mov)
       (stock' : Stock) (res : List ResumeEntry),
      drive rows movs stock [] none = .ok (movs', stock', res) →
      movs'.map movKey = movs.map movKey) := by
  refine ⟨stockMovementsInit_sorted, stockMovementsInit_perm_invariant, ?_⟩
  intro rows movs stock movs' stock' res h
  exact map_movKey_of_map_chassis _ _
    (drive_chassis rows movs stock [] none movs' stock' res h)

def c8rawB : RawMovement :=
  { c4raw with
      movement_id := 2
      movement_date := ⟨2024, 1, 3⟩
      movement_history := "x" }

/-- Witness for C8: swapping two input records leaves the pipeline output
unchanged, and a concrete pass that rewrites a movement's cost preserves the
key sequence. -/
theorem C8_deterministic_ordering_witness :
    stockMovementsInit [c4raw, c8rawB] = stockMovementsInit [c8rawB, c4raw] ∧
    [{ c10mov with
        total_cost := 6
        average_cost := 3
        movement_cost_is_already_correct := true }].map movKey =
      [c10mov].map movKey := by
  constructor
  · exact C8_deterministic_ordering.2.1 [c4raw, c8rawB] [c8rawB, c4raw]
      (List.Perm.swap c8rawB c4raw []) (by decide)
  · exact C8_deterministic_ordering.2.2 [c10mov] [c10mov] c10stock
      [{ c10mov with
          total_cost := 6
          average_cost := 3
          movement_cost_is_already_correct := true }]
      [⟨1, "a", 4, 3, 12, 56⟩] [] (by rfl)

/-- C9: for a production order with a non-empty selection,
`correct_production_order` fails with `IncompleteGroup` exactly when its set
of production-order-input movements is empty; when inputs are non-empty (and
their items are in the ledger) the operation returns normally — in particular
an empty output set causes no failure. -/
theorem C9_incomplete_group :
    ∀ (movs : List Mov) (stock : Stock) (pid : Nat),
      movs.filter (fun m => m.production_order_id == some pid) ≠ [] →
      ((correct_production_order movs (some pid) stock =
          .error (.incompleteGroup (some pid))) ↔
        movs.filter (fun m => m.is_production_order_input &&
          (m.production_order_id == some pid)) = []) ∧
      (movs.filter (fun m => m.is_production_order_input &&
          (m.production_order_id == some pid)) ≠ [] →
       (∀ r ∈ movs.filter (fun m => m.is_production_order_input &&
          (m.production_order_id == some pid)),
          stock.item_id_exists r.item_id = true) →
       ∃ movs', correct_production_order movs (some pid) stock = .ok movs') := by
  intro movs stock pid hsel
  have hc1 : ¬(((movs.filter (fun m => m.production_order_id == some pid)).isEmpty) = true) := by
    cases hmm : movs.filter (fun m => m.production_order_id == some pid) with
    | nil => exact absurd hmm hsel
    | cons a t => simp
  constructor
  · constructor
    · intro herr
      by_contra hne
      have e1 : (movs.filter (fun a => a.is_production_order_input &&
          (a.production_order_id == some pid))).isEmpty = false := by
        cases hmm : movs.filter (fun a => a.is_production_order_input &&
            (a.production_order_id == some pid)) with
        | nil => exact absurd hmm hne
        | cons a t => rfl
      simp only [correct_production_order, selectByProductionOrderId,
        List.filter_filter] at herr
      rw [if_neg hc1, if_neg (by simp [e1])] at herr
      cases happ : applyInputs stock movs (movs.filter
          (fun a => a.is_production_order_input &&
            (a.production_order_id == some pid))) 0 with
      | error e =>
        rw [happ] at herr
        obtain ⟨i, hi⟩ := applyInputs_error_kind stock _ movs 0 e happ
        rw [hi] at herr
        simp at herr
      | ok pair =>
        obtain ⟨movs2, cost⟩ := pair
        rw [happ] at herr
        simp at herr
    · intro hempty
      simp only [correct_production_order, selectByProductionOrderId,
        List.filter_filter]
      rw [if_neg hc1, if_pos (by simp [hempty])]
  · intro hne hav
    have e1 : (movs.filter (fun a => a.is_production_order_input &&
        (a.production_order_id == some pid))).isEmpty = false := by
      cases hmm : movs.filter (fun a => a.is_production_order_input &&
          (a.production_order_id == some pid)) with
      | nil => exact absurd hmm hne
      | cons a t => rfl
    apply Exists.intro
    simp only [correct_production_order, selectByProductionOrderId,
      List.filter_filter]
    rw [if_neg hc1, if_neg (by simp [e1]), applyInputs_eq stock _ movs 0 hav]

def c9in : Mov :=
  { baseMov 1 ⟨2024, 1, 5⟩ 1 (-1) (-4) (-4) with
    production_order_id := some 5, is_production_order := true,
    is_production_order_input := true }

def c9noin : Mov :=
  { baseMov 2 ⟨2024, 1, 6⟩ 2 1 4 4 with
    production_order_id := some 6, is_production_order := true }

def c9stock : Stock := [⟨1, "a", 2, 4, 8, 8⟩]

/-- Witness for C9: a production order with one input and no outputs resolves
normally (no `IncompleteGroup`), while one with a movement but no inputs
fails with `IncompleteGroup`. -/
theorem C9_incomplete_group_witness :
    ¬(correct_production_order [c9in] (some 5) c9stock =
        .error (.incompleteGroup (some 5))) ∧
    (correct_production_order [c9in] (some 5) c9stock).toOption.isSome = true ∧
    correct_production_order [c9noin] (some 6) c9stock =
      .error (.incompleteGroup (some 6)) := by
  have h5 := C9_incomplete_group [c9in] c9stock 5 (by decide)
  have h6 := C9_incomplete_group [c9noin] c9stock 6 (by decide)
  refine ⟨?_, ?_, ?_⟩
  · intro hcon
    exact absurd (h5.1.mp hcon) (by decide)
  · obtain ⟨movs', hm⟩ := h5.2 (by decide) (by decide)
    rw [hm]
    rfl
  · exact h6.1.mpr (by decide)

/-- C10: the three cost-correction operations write only `total_cost`,
`average_cost` and the already-correct flag (every other field — quantity,
item, dates, originalCost, flags, group ids — is unchanged, stated as equality
of the `chassis` projections), and consequently, for a completed pass over
movements with unique ids, each item's final ledger quantity equals its seeded
quantity plus the sum of the quantities of that item's processed movements,
independent of any cost corrections. -/
theorem C10_frame_and_quantity_conservation :
    (∀ (movs : List Mov) (did : Option Nat) (stock : Stock) (movs' : List Mov),
      correct_dismantling movs did stock = .ok movs' →
      movs'.map Mov.chassis = movs.map Mov.chassis) ∧
    (∀ (movs : List Mov) (pid : Option Nat) (stock : Stock) (movs' : List Mov),
      correct_production_order movs pid stock = .ok movs' →
      movs'.map Mov.chassis = movs.map Mov.chassis) ∧
    (∀ (movs : List Mov) (mid : Nat) (stock : Stock) (movs' : List Mov),
      correct_movement_cost_by_stock movs mid stock = .ok movs' →
      movs'.map Mov.chassis = movs.map Mov.chassis) ∧
    (∀ (movs : List Mov) (stock : Stock) (movs' : List Mov) (stock' : Stock)
       (res : List ResumeEntry),
      (movs.map (fun m => m.movement_id)).Nodup →
      correct_costs_and_generate_stocks movs stock = .ok (movs', stock', res) →
      ∀ j, stockQty stock' j = stockQty stock j +
        ((movs.filter (fun m => m.item_id == j)).map (fun m => m.quantity)).sum) := by
  refine ⟨correct_dismantling_chassis, correct_production_order_chassis,
    correct_movement_cost_by_stock_chassis, ?_⟩
  intro movs stock movs' stock' res hnd h j
  unfold correct_costs_and_generate_stocks at h
  have hq := drive_qty movs movs stock [] none movs' stock' res h j
  rw [hq]
  congr 1
  rw [List.map_congr_left (fun (r : Mov) (hr : r ∈ movs) =>
    contribOf_eq_of_find movs r.movement_id j r (find?_self_of_nodup movs r hnd hr))]
  exact sum_ite_eq_filter_sum movs j

/-- Witness for C10: the frame property at the three concrete resolutions and
the quantity equation for the concrete three-movement pass (item 1 ends at
quantity 3 = 0 + 1 + 1 + 1). -/
theorem C10_frame_and_quantity_witness :
    c2dres.map Mov.chassis = [c3a, c3b].map Mov.chassis ∧
    c2wres.map Mov.chassis = [c2w1, c2w2].map Mov.chassis ∧
    [{ c10mov with
        total_cost := 6
        average_cost := 3
        movement_cost_is_already_correct := true }].map Mov.chassis =
      [c10mov].map Mov.chassis ∧
    stockQty [⟨1, "item", 3, 35/3, 35, 35⟩] 1 =
      stockQty ([] : Stock) 1 +
        (([c6m1, c6m2, c6m3].filter (fun m => m.item_id == 1)).map
          (fun m => m.quantity)).sum := by
  refine ⟨?_, ?_, ?_, ?_⟩
  · exact C10_frame_and_quantity_conservation.1 [c3a, c3b] (some 7) c3stock
      c2dres (by rfl)
  · exact C10_frame_and_quantity_conservation.2.1 [c2w1, c2w2] (some 8) c2wstock
      c2wres (by rfl)
  · exact C10_frame_and_quantity_conservation.2.2.1 [c10mov] 1 c10stock
      [{ c10mov with
          total_cost := 6
          average_cost := 3
          movement_cost_is_already_correct := true }] (by rfl)
  · exact C10_frame_and_quantity_conservation.2.2.2 [c6m1, c6m2, c6m3] []
      [c6m1, c6m2, c6m3] [⟨1, "item", 3, 35/3, 35, 35⟩]
      [⟨⟨2024, 1, 31⟩, 30, 30⟩] (by decide) (by rfl) 1

end DecideRat
